import Mathlib

set_option autoImplicit false

/-!
# Node health check operator: node-to-policy mappers and reconciliation core

The first part embeds `controllers/utils/mapper.go` together with the label
selector functions of `k8s.io/apimachinery` that the mappers call.  Go values
that may be `nil` are `Option`s, a method call on a `nil` interface is the
outcome `panicked`.
-/

namespace NodeHealthCheck

/-! ## Label sets (`labels.Set`) -/

/-- A label set, `labels.Set` (a Go `map[string]string`), as an association list. -/
abbrev Labels := List (String × String)

/-- The method `labels.Set.Has`: whether the key is present. -/
def Labels.Has (ls : Labels) (key : String) : Bool :=
  ls.any (fun kv => kv.1 == key)

/-- The method `labels.Set.Get`: the value stored for the key, the empty string if absent. -/
def Labels.Get (ls : Labels) (key : String) : String :=
  (ls.lookup key).getD ""

/-! ## Label selectors (`metav1.LabelSelector`, `labels.Selector`) -/

/-- The struct `metav1.LabelSelectorRequirement`; the operator is a plain string. -/
structure LabelSelectorRequirement where
  Key : String
  Operator : String
  Values : List String
  deriving DecidableEq, Repr

/-- The struct `metav1.LabelSelector`. -/
structure LabelSelector where
  MatchLabels : List (String × String)
  MatchExpressions : List LabelSelectorRequirement
  deriving DecidableEq, Repr

/-- The operators of `selection.Operator` that `LabelSelectorAsSelector` can produce. -/
inductive Operator where
  | In
  | NotIn
  | Equals
  | Exists
  | DoesNotExist
  deriving DecidableEq, Repr

/-- The struct `labels.Requirement`. -/
structure Requirement where
  key : String
  operator : Operator
  strValues : List String
  deriving DecidableEq, Repr

/-- The `internalSelector` of package `labels`: a conjunction of requirements. -/
abbrev Selector := List Requirement

/-- The function `strings.Split` with a one-character separator, on the characters
of the string: the pieces between the separators (one piece if there is none). -/
def splitChars (sep : Char) : List Char → List (List Char)
  | [] => [[]]
  | c :: cs =>
    if c = sep then [] :: splitChars sep cs
    else
      match splitChars sep cs with
      | [] => [[c]]
      | piece :: pieces => (c :: piece) :: pieces

/-- The length `len(s)` of a Go string: its number of UTF-8 bytes. -/
def byteLen (s : List Char) : Nat :=
  (s.map Char.utf8Size).sum

/-- Characters of the regular expression class `[-A-Za-z0-9_.]`. -/
def isQualifiedNameChar (c : Char) : Bool :=
  c.isAlphanum || c == '-' || c == '_' || c == '.'

/-- Whole-string match of `([A-Za-z0-9][-A-Za-z0-9_.]*)?[A-Za-z0-9]`. -/
def matchesQualifiedName (s : List Char) : Bool :=
  match s with
  | [] => false
  | c :: cs => c.isAlphanum && cs.all isQualifiedNameChar && ((c :: cs).getLast?.any Char.isAlphanum)

/-- Characters of the regular expression class `[a-z0-9]`. -/
def isLowerOrDigit (c : Char) : Bool :=
  c.isLower || c.isDigit

/-- Whole-string match of `[a-z0-9]([-a-z0-9]*[a-z0-9])?`, one DNS label. -/
def matchesDNS1123Label (s : List Char) : Bool :=
  match s with
  | [] => false
  | c :: cs =>
    isLowerOrDigit c && cs.all (fun d => isLowerOrDigit d || d == '-') &&
      ((c :: cs).getLast?.any isLowerOrDigit)

/-- The function `validation.IsDNS1123Subdomain`, as a yes/no answer: at most 253
bytes, DNS labels separated by dots. -/
def IsDNS1123Subdomain (s : List Char) : Bool :=
  decide (byteLen s ≤ 253) && (splitChars '.' s).all matchesDNS1123Label

/-- The name part checked by `validation.IsQualifiedName`: not empty, at most 63
bytes, matching the qualified-name expression. -/
def isQualifiedNamePart (name : List Char) : Bool :=
  decide (byteLen name ≠ 0) && decide (byteLen name ≤ 63) && matchesQualifiedName name

/-- The function `validation.IsQualifiedName`, as a yes/no answer: an optional DNS
subdomain followed by a slash, and a name part. -/
def IsQualifiedName (value : String) : Bool :=
  match splitChars '/' value.data with
  | [name] => isQualifiedNamePart name
  | [pfx, name] => decide (byteLen pfx ≠ 0) && IsDNS1123Subdomain pfx && isQualifiedNamePart name
  | _ => false

/-- The function `validation.IsValidLabelValue`, as a yes/no answer. -/
def IsValidLabelValue (value : String) : Bool :=
  decide (byteLen value.data ≤ 63) && (value.data.isEmpty || matchesQualifiedName value.data)

/-- The function `labels.NewRequirement`, restricted to the operators above: the key
must be a qualified name, the number of values must fit the operator and every
value must be a valid label value. Go returns `(*Requirement, error)`; on error
the caller only looks at the error. -/
def NewRequirement (key : String) (op : Operator) (vals : List String) :
    Except String Requirement :=
  let arityOk : Bool :=
    match op with
    | .In | .NotIn => !vals.isEmpty
    | .Equals => vals.length == 1
    | .Exists | .DoesNotExist => vals.isEmpty
  if !IsQualifiedName key then .error "invalid label key"
  else if !arityOk then .error "invalid number of values for the operator"
  else if !vals.all IsValidLabelValue then .error "invalid label value"
  else .ok { key := key, operator := op, strValues := vals }

/-- The operator switch of `LabelSelectorAsSelector`. -/
def convertOperator (op : String) : Option Operator :=
  if op = "In" then some .In
  else if op = "NotIn" then some .NotIn
  else if op = "Exists" then some .Exists
  else if op = "DoesNotExist" then some .DoesNotExist
  else none

/-- The first loop of `LabelSelectorAsSelector`: one `Equals` requirement per match label. -/
def matchLabelsRequirements : List (String × String) → Except String (List Requirement)
  | [] => .ok []
  | (k, v) :: rest =>
    match NewRequirement k .Equals [v] with
    | .error e => .error e
    | .ok r =>
      match matchLabelsRequirements rest with
      | .error e => .error e
      | .ok rs => .ok (r :: rs)

/-- The second loop of `LabelSelectorAsSelector`: one requirement per match expression. -/
def matchExpressionsRequirements : List LabelSelectorRequirement → Except String (List Requirement)
  | [] => .ok []
  | expr :: rest =>
    match convertOperator expr.Operator with
    | none => .error "not a valid label selector operator"
    | some op =>
      match NewRequirement expr.Key op expr.Values with
      | .error e => .error e
      | .ok r =>
        match matchExpressionsRequirements rest with
        | .error e => .error e
        | .ok rs => .ok (r :: rs)

/-- The function `metav1.LabelSelectorAsSelector` called on the address of a selector
field (never `nil`). Go returns the pair `(labels.Selector, error)`: on failure the
selector is `nil` and the error is set, on success the error is `nil`. A selector
without labels and expressions is `labels.Everything()`, the empty conjunction.
Go sorts the requirements by key, which does not change what they match. -/
def LabelSelectorAsSelector (ps : LabelSelector) : Option Selector × Option String :=
  if ps.MatchLabels.length + ps.MatchExpressions.length = 0 then (some [], none)
  else
    match matchLabelsRequirements ps.MatchLabels with
    | .error e => (none, some e)
    | .ok rs₁ =>
      match matchExpressionsRequirements ps.MatchExpressions with
      | .error e => (none, some e)
      | .ok rs₂ => (some (rs₁ ++ rs₂), none)

/-- The method `Requirement.Matches`. -/
def Requirement.Matches (r : Requirement) (ls : Labels) : Bool :=
  match r.operator with
  | .In | .Equals => ls.Has r.key && r.strValues.contains (ls.Get r.key)
  | .NotIn => !ls.Has r.key || !r.strValues.contains (ls.Get r.key)
  | .Exists => ls.Has r.key
  | .DoesNotExist => !ls.Has r.key

/-- The method `internalSelector.Matches`: every requirement matches. -/
def Selector.Matches (s : Selector) (ls : Labels) : Bool :=
  s.all (fun r => r.Matches ls)

/-! ## Outcomes of Go calls -/

/-- What a Go function call does: it returns a value, or it panics (here always by
calling a method on a `nil` interface value). -/
inductive Outcome (α : Type) where
  | returned (value : α)
  | panicked
  deriving DecidableEq, Repr

/-- The call `selector.Matches(ls)` on an interface value that may be `nil`. -/
def callMatches (selector : Option Selector) (ls : Labels) : Outcome Bool :=
  match selector with
  | none => .panicked
  | some s => .returned (s.Matches ls)

/-! ## Objects of the object store -/

/-- A node condition, `v1.NodeCondition`. -/
structure NodeCondition where
  CondType : String
  Status : String
  LastTransitionTime : Nat
  deriving DecidableEq, Repr

/-- A node, `v1.Node`: name, labels and reported conditions. -/
structure Node where
  Name : String
  Labels : Labels
  Conditions : List NodeCondition
  deriving DecidableEq, Repr

/-- The zero value `&v1.Node{}`. -/
def Node.empty : Node := { Name := "", Labels := [], Conditions := [] }

/-- The event object handed to a mapper, `client.Object`. -/
structure Object where
  Name : String
  Namespace : String
  Labels : Labels
  deriving DecidableEq, Repr

/-- A `NodeHealthCheck` as far as the mapper reads it. -/
structure NodeHealthCheckItem where
  Name : String
  Selector : LabelSelector
  deriving DecidableEq, Repr

/-- A `MachineHealthCheck` as far as the mapper reads it. -/
structure MachineHealthCheckItem where
  Namespace : String
  Name : String
  Selector : LabelSelector
  deriving DecidableEq, Repr

/-- A `reconcile.Request`, that is a `types.NamespacedName`. -/
structure Request where
  Namespace : String
  Name : String
  deriving DecidableEq, Repr

/-- The `client.Client` as the mappers use it: listing the two kinds and getting a
node by name, each of which may fail. -/
structure Client where
  ListNHC : Except String (List NodeHealthCheckItem)
  ListMHC : Except String (List MachineHealthCheckItem)
  GetNode : String → Except String Node

/-- The two lines `node := &v1.Node{}; err = c.Get(..., node)`: the node stays the
zero value when the call fails, and the error is not looked at. -/
def fetchNode (c : Client) (name : String) : Node :=
  match c.GetNode name with
  | .ok node => node
  | .error _ => Node.empty

/-! ## `NHCByNodeMapperFunc` -/

/-- The loop body of the delegate of `NHCByNodeMapperFunc` over the remaining items,
with the request slice `r` built so far. A conversion error is logged and the loop
goes on to call `Matches` on the selector it got. -/
def nhcLoop (c : Client) (o : Object) :
    List NodeHealthCheckItem → List Request → Outcome (List Request)
  | [], r => .returned r
  | nhc :: rest, r =>
    let selector := (LabelSelectorAsSelector nhc.Selector).1
    let node := fetchNode c o.Name
    match callMatches selector node.Labels with
    | .panicked => .panicked
    | .returned true => nhcLoop c o rest (r ++ [{ Namespace := "", Name := nhc.Name }])
    | .returned false => nhcLoop c o rest r

/-- The delegate returned by `NHCByNodeMapperFunc(c, logger)`, applied to an object. -/
def NHCByNodeMapperFunc (c : Client) (o : Object) : Outcome (List Request) :=
  match c.ListNHC with
  | .error _ => .returned []
  | .ok items => nhcLoop c o items []

/-! ## `MHCByNodeMapperFunc` -/

/-- The loop body of the delegate of `MHCByNodeMapperFunc`: a conversion error is
logged and the item is skipped with `continue`. -/
def mhcLoop (c : Client) (o : Object) :
    List MachineHealthCheckItem → List Request → Outcome (List Request)
  | [], r => .returned r
  | mhc :: rest, r =>
    match LabelSelectorAsSelector mhc.Selector with
    | (_, some _) => mhcLoop c o rest r
    | (selector, none) =>
      let node := fetchNode c o.Name
      match callMatches selector node.Labels with
      | .panicked => .panicked
      | .returned true =>
        mhcLoop c o rest (r ++ [{ Namespace := mhc.Namespace, Name := mhc.Name }])
      | .returned false => mhcLoop c o rest r

/-- The delegate returned by `MHCByNodeMapperFunc(c, logger)`, applied to an object. -/
def MHCByNodeMapperFunc (c : Client) (o : Object) : Outcome (List Request) :=
  match c.ListMHC with
  | .error _ => .returned []
  | .ok items => mhcLoop c o items []

/-- Whether a selector field is well-formed: its conversion reports no error. -/
def wellFormed (sel : LabelSelector) : Bool :=
  (LabelSelectorAsSelector sel).2.isNone

/-- Whether a well-formed selector field matches a label set (false for a malformed one). -/
def selects (sel : LabelSelector) (ls : Labels) : Bool :=
  match (LabelSelectorAsSelector sel).1 with
  | some s => s.Matches ls
  | none => false

/-! ## Test doubles of `controllers/suite_test.go` -/

/-- A point in time, `time.Time`, as a number of time units since a fixed origin. -/
abbrev Time := Nat

/-- The closure assigned to `currentTime` in `BeforeSuite`. It reads the package
variable `fakeTime` (a pointer, `nil` when no fake time is set) and, only when that
is `nil`, the wall clock `time.Now()`. -/
def currentTime (fakeTime : Option Time) (wallClock : Time) : Time :=
  match fakeTime with
  | some t => t
  | none => wallClock

/-- The struct `fakeClusterUpgradeChecker`. -/
structure fakeClusterUpgradeChecker where
  Upgrading : Bool
  Err : Option String
  deriving DecidableEq, Repr

/-- The method `(*fakeClusterUpgradeChecker).Check`: the two fields, as they are. -/
def fakeClusterUpgradeChecker.Check (c : fakeClusterUpgradeChecker) : Bool × Option String :=
  (c.Upgrading, c.Err)

/-! ## Reconciliation core: data model -/

/-- Modelled from the spec: the phase of a policy status (section 3); the type is
declared in `api/v1alpha1`, which is not among the sources. -/
inductive Phase where
  | Enabled
  | Disabled
  | Paused
  | Remediating
  deriving DecidableEq, Repr

/-- Modelled from the spec: an unhealthy-condition rule
`{conditionType, expectedStatus, minimumDuration}` (section 3). -/
structure UnhealthyConditionRule where
  conditionType : String
  expectedStatus : String
  minimumDuration : Nat
  deriving DecidableEq, Repr

/-- Modelled from the spec: a step of the escalation ladder
`{templateReference, order, timeout}` (section 3). -/
structure EscalationStep where
  templateReference : String
  order : Int
  timeout : Nat
  deriving DecidableEq, Repr

/-- Modelled from the spec: the minimum-healthy threshold, an absolute count or a
percentage string (section 3); in the tests an `intstr.IntOrString`. -/
inductive MinHealthy where
  | int (value : Int)
  | str (value : String)
  deriving DecidableEq, Repr

/-- Modelled from the spec: a policy (section 3). -/
structure Policy where
  identifier : String
  selector : LabelSelector
  unhealthyConditions : List UnhealthyConditionRule
  minHealthy : MinHealthy
  ladder : List EscalationStep
  deriving DecidableEq, Repr

/-- Modelled from the spec: the state of one remediation step of one node
(section 3): step order, start time, timeout deadline, timed-out flag. -/
structure RemediationStepState where
  order : Int
  startTime : Time
  timeoutDeadline : Time
  timedOut : Bool
  deriving DecidableEq, Repr

/-- Modelled from the spec: an entry of the unhealthy-node list of a policy status,
carrying the step states of the node (section 3). -/
structure UnhealthyNode where
  name : String
  remediations : List RemediationStepState
  deriving DecidableEq, Repr

/-- Modelled from the spec: the policy status (section 3): phase, the "Disabled"
condition with its reason, the unhealthy nodes and the in-flight remediation list
(one entry per node with a remediation in flight). -/
structure PolicyStatus where
  phase : Phase
  disabledCondition : Bool
  reason : String
  configurationError : Option String
  unhealthyNodes : List UnhealthyNode
  inFlightRemediations : List String
  deriving DecidableEq, Repr

/-- Modelled from the spec: a remediation-resource handle created by the core: it is
named after the target node and references the template of a ladder step (6). -/
structure Handle where
  name : String
  templateReference : String
  order : Int
  deriving DecidableEq, Repr

/-! ## Target Resolver (section 4.1) -/

/-- The constant `ControlPlaneRoleLabel`, spelled out in `e2e_test.go`. -/
def ControlPlaneRoleLabel : String := "node-role.kubernetes.io/control-plane"

/-- The constant `MasterRoleLabel`, spelled out in `e2e_test.go`. -/
def MasterRoleLabel : String := "node-role.kubernetes.io/master"

/-- Modelled from the spec: the Target Resolver, absent from the sources. Nodes with a
control-plane or master role label are removed, the rest is matched against the
selector; a malformed selector is an error. -/
def resolveTargets (selector : LabelSelector) (nodes : List Node) : Except String (List Node) :=
  match LabelSelectorAsSelector selector with
  | (some s, none) =>
    .ok (nodes.filter (fun n =>
      !(n.Labels.Has ControlPlaneRoleLabel || n.Labels.Has MasterRoleLabel) && s.Matches n.Labels))
  | _ => .error "malformed selector"

/-! ## Health Evaluator (section 4.2) -/

/-- The constant `mhc.NodeConditionTerminating` used by `e2e_test.go`; its value is
declared outside the sources. -/
def NodeConditionTerminating : String := "Terminating"

/-- Modelled from the spec: whether a node carries the externally reported
"terminating" condition (section 4.2). -/
def isTerminating (node : Node) : Bool :=
  node.Conditions.any (fun c => c.CondType == NodeConditionTerminating)

/-- Modelled from the spec: whether a rule makes a node unhealthy at the instant
`now`: the node reports a condition of the rule's type, its status is the expected
one and it has held for at least the minimum duration since its last transition. A
node lacking the condition type is healthy for the rule. -/
def ruleMatches (now : Time) (node : Node) (rule : UnhealthyConditionRule) : Bool :=
  match node.Conditions.find? (fun c => c.CondType == rule.conditionType) with
  | none => false
  | some c => c.Status == rule.expectedStatus &&
      decide (c.LastTransitionTime + rule.minimumDuration ≤ now)

/-- Modelled from the spec: the classification of a node by the Health Evaluator. -/
inductive Health where
  | healthy
  | unhealthy
  | excluded
  deriving DecidableEq, Repr

/-- Modelled from the spec: the Health Evaluator, absent from the sources. A
terminating node is excluded; otherwise the node is unhealthy under the first rule,
in declared order, that matches, and healthy if none does. -/
def evaluateHealth (now : Time) (rules : List UnhealthyConditionRule) (node : Node) : Health :=
  if isTerminating node then .excluded
  else
    match rules.find? (ruleMatches now node) with
    | some _ => .unhealthy
    | none => .healthy

/-! ## Healthy-Quorum Gate (section 4.3) -/

/-- Modelled from the spec: the value of a string of decimal digits, `none` if a
character is no digit; used to read a percentage. -/
def parseDigits : List Char → Nat → Option Nat
  | [], acc => some acc
  | c :: cs, acc => if c.isDigit then parseDigits cs (10 * acc + (c.toNat - 48)) else none

/-- Modelled from the spec: a well-formed percentage string such as `10%`: one or
more decimal digits followed by a percent sign; the result is the number. -/
def parsePercentage (s : String) : Option Nat :=
  match s.data.reverse with
  | '%' :: d :: ds => parseDigits (d :: ds).reverse 0
  | _ => none

/-- Modelled from the spec: the minimum healthy requirement `M` of a policy for a
target set of size `T`: the absolute count, or the percentage of `T`, rounded up
or down by the policy convention `roundUp`. A negative count or a malformed
percentage is a configuration error. -/
def minimumHealthy (roundUp : Bool) (v : MinHealthy) (T : Nat) : Except String Nat :=
  match v with
  | .int n => if n < 0 then .error "negative minimum-healthy" else .ok n.toNat
  | .str s =>
    match parsePercentage s with
    | none => .error "malformed minimum-healthy percentage"
    | some pct => .ok (if roundUp then (pct * T + 99) / 100 else pct * T / 100)

/-- Modelled from the spec: the Healthy-Quorum Gate, absent from the sources. With
target set size `T`, healthy count `H` and requirement `M` the gate is open when
`T = 0`, and otherwise closed when `H < M`. -/
def quorumGateOpen (T H M : Nat) : Bool :=
  if T = 0 then true else !decide (H < M)

/-! ## Conflict Guard (section 4.4) -/

/-- Modelled from the spec: the result of the Conflict Guard: clear, tripped by a
legacy health check overlap, or tripped by a cluster upgrade. -/
inductive GuardResult where
  | clear
  | overlap
  | upgrade
  deriving DecidableEq, Repr

/-- Modelled from the spec: the Conflict Guard, absent from the sources: the overlap
detector is consulted first, then the upgrade detector. -/
def conflictGuard (legacyOverlap upgrading : Bool) : GuardResult :=
  if legacyOverlap then .overlap
  else if upgrading then .upgrade
  else .clear

/-! ## Escalation Engine (section 4.5) -/

/-- Modelled from the spec: the ladder step of lowest order (lowest order = first
step), the first of them in the list among equals. -/
def lowestOrder : List EscalationStep → Option EscalationStep
  | [] => none
  | s :: rest =>
    match lowestOrder rest with
    | none => some s
    | some b => if s.order ≤ b.order then some s else some b

/-- Modelled from the spec: the first step of a ladder, the one of lowest order. -/
def firstStep (ladder : List EscalationStep) : Option EscalationStep :=
  lowestOrder ladder

/-- Modelled from the spec: the next step after order `k`, the step with the
next-lowest order greater than `k`, if there is one. -/
def nextStep (ladder : List EscalationStep) (k : Int) : Option EscalationStep :=
  lowestOrder (ladder.filter (fun s => decide (k < s.order)))

/-- Modelled from the spec: the state recorded when a step starts at `now`: start
time and timeout deadline (start plus step timeout), not timed out. -/
def startStep (now : Time) (s : EscalationStep) : RemediationStepState :=
  { order := s.order, startTime := now, timeoutDeadline := now + s.timeout, timedOut := false }

/-- Modelled from the spec: the handle created for a node when a step starts. -/
def handleFor (name : String) (s : EscalationStep) : Handle :=
  { name := name, templateReference := s.templateReference, order := s.order }

/-- Modelled from the spec: the Escalation Engine for one node in one pass, absent
from the sources. `steps` is the node's step list from the previous status, its
last element the current step; the result is the new list and the handles created.
* healthy: the list is removed (Cleared);
* excluded (terminating): escalation is abandoned, nothing is created;
* unhealthy while new starts are suppressed: the list is left untouched;
* unhealthy, no step yet: the first ladder step starts;
* unhealthy, current step past its deadline: it is marked timed out and the next
  ladder step, if any, starts; without a next step the list stays as it is. -/
def escalateNode (ladder : List EscalationStep) (now : Time) (newStartsAllowed : Bool)
    (health : Health) (name : String) (steps : List RemediationStepState) :
    List RemediationStepState × List Handle :=
  match health with
  | .healthy => ([], [])
  | .excluded => ([], [])
  | .unhealthy =>
    if !newStartsAllowed then (steps, [])
    else
      match steps.getLast? with
      | none =>
        match firstStep ladder with
        | none => ([], [])
        | some s => ([startStep now s], [handleFor name s])
      | some cur =>
        if !(cur.timedOut || decide (cur.timeoutDeadline < now)) then (steps, [])
        else
          let marked := steps.dropLast ++ [{ cur with timedOut := true }]
          match nextStep ladder cur.order with
          | none => (marked, [])
          | some s => (marked ++ [startStep now s], [handleFor name s])

/-! ## Status Aggregator and phase state machine (section 4.6) -/

/-- Modelled from the spec: the phase as a function of the Conflict Guard result and
the in-flight remediation list (section 4.6). -/
def phaseOf (guard : GuardResult) (inFlight : List String) : Phase :=
  match guard with
  | .overlap => .Disabled
  | .upgrade => .Paused
  | .clear => if inFlight.isEmpty then .Enabled else .Remediating

/-- Modelled from the spec: the in-flight remediation list of an unhealthy-node
list: the nodes that list at least one step, each once. -/
def inFlightOf (unhealthy : List UnhealthyNode) : List String :=
  (unhealthy.filter (fun u => !u.remediations.isEmpty)).map (fun u => u.name)

/-- Modelled from the spec: the Status Aggregator, absent from the sources. -/
def aggregateStatus (guard : GuardResult) (configurationError : Option String)
    (unhealthy : List UnhealthyNode) : PolicyStatus :=
  { phase := phaseOf guard (inFlightOf unhealthy)
    disabledCondition := decide (guard = .overlap)
    reason :=
      match guard with
      | .overlap => "legacy health check overlap"
      | .upgrade => "cluster upgrade in progress"
      | .clear => ""
    configurationError := configurationError
    unhealthyNodes := unhealthy
    inFlightRemediations := inFlightOf unhealthy }

/-- Modelled from the spec: the status of a policy before its first reconciliation;
its phase is Enabled (section 4.6). -/
def PolicyStatus.initial : PolicyStatus :=
  aggregateStatus .clear none []

/-! ## The reconciliation pass (section 2) -/

/-- Modelled from the spec: what one reconciliation pass reads besides the policy
and its previous status: the instant given by the injected clock, the node set, the
answer of the legacy-health-check overlap query, the upgrade checker and the
rounding convention of percentages. -/
structure PassInput where
  now : Time
  nodes : List Node
  legacyOverlap : Bool
  upgradeChecker : fakeClusterUpgradeChecker
  roundUp : Bool

/-- Modelled from the spec: what one pass produces: the new status and the
remediation-resource handles it created. -/
structure PassResult where
  status : PolicyStatus
  created : List Handle
  deriving DecidableEq, Repr

/-- Modelled from the spec: the step list a previous status records for a node,
empty if it has none. -/
def stepsOf (prev : PolicyStatus) (name : String) : List RemediationStepState :=
  match prev.unhealthyNodes.find? (fun u => u.name == name) with
  | some u => u.remediations
  | none => []

/-- Modelled from the spec: the Escalation Engine over the target nodes, in order:
the unhealthy-node entries (one per node classified unhealthy) and the handles
created. -/
def escalateAll (p : Policy) (now : Time) (newStartsAllowed : Bool) (prev : PolicyStatus) :
    List Node → List UnhealthyNode × List Handle
  | [] => ([], [])
  | n :: rest =>
    let health := evaluateHealth now p.unhealthyConditions n
    let here := escalateNode p.ladder now newStartsAllowed health n.Name (stepsOf prev n.Name)
    let others := escalateAll p now newStartsAllowed prev rest
    match health with
    | .unhealthy => ({ name := n.Name, remediations := here.1 } :: others.1, here.2 ++ others.2)
    | _ => (others.1, here.2 ++ others.2)

/-- Modelled from the spec: the count `H` of currently healthy nodes within the
target set (section 4.3); excluded nodes are not healthy. -/
def healthyCount (now : Time) (rules : List UnhealthyConditionRule) (targets : List Node) : Nat :=
  (targets.filter (fun n => decide (evaluateHealth now rules n = .healthy))).length

/-- Modelled from the spec: one reconciliation pass of a policy, absent from the
sources: Conflict Guard, Target Resolver, Health Evaluator, Healthy-Quorum Gate,
Escalation Engine, Status Aggregator. A failing upgrade check aborts the pass
(error, no status written). A tripped guard freezes escalation and exits early. A
configuration error (malformed selector or minimum-healthy value) halts the pass
and is surfaced in the status. -/
def reconcile (p : Policy) (inp : PassInput) (prev : PolicyStatus) : Except String PassResult :=
  match inp.upgradeChecker.Check with
  | (_, some e) => .error e
  | (upgrading, none) =>
    match conflictGuard inp.legacyOverlap upgrading with
    | .overlap => .ok { status := aggregateStatus .overlap none prev.unhealthyNodes, created := [] }
    | .upgrade => .ok { status := aggregateStatus .upgrade none prev.unhealthyNodes, created := [] }
    | .clear =>
      match resolveTargets p.selector inp.nodes with
      | .error e => .ok { status := aggregateStatus .clear (some e) prev.unhealthyNodes, created := [] }
      | .ok targets =>
        match minimumHealthy inp.roundUp p.minHealthy targets.length with
        | .error e =>
          .ok { status := aggregateStatus .clear (some e) prev.unhealthyNodes, created := [] }
        | .ok M =>
          let H := healthyCount inp.now p.unhealthyConditions targets
          let result := escalateAll p inp.now (quorumGateOpen targets.length H M) prev targets
          .ok { status := aggregateStatus .clear none result.1, created := result.2 }

/-! ## Validation Guard (section 4.7) -/

/-- The constant `v1alpha1.OngoingRemediationError` that `e2e_test.go` expects in
the rejection of a selector update and of a deletion; its value is declared
outside the sources. -/
def OngoingRemediationError : String := "prohibited due to running remediation"

/-- The function `strings.HasPrefix` on the characters of two strings. -/
def startsWith : List Char → List Char → Bool
  | _, [] => true
  | [], _ :: _ => false
  | c :: cs, p :: ps => c == p && startsWith cs ps

/-- Whether the characters of `sub` occur as a block in `text`. -/
def containsChars (sub : List Char) : List Char → Bool
  | [] => sub.isEmpty
  | c :: cs => startsWith (c :: cs) sub || containsChars sub cs

/-- The matcher `ContainSubstring` of the tests (`strings.Contains`). -/
def ContainSubstring (text sub : String) : Bool :=
  containsChars sub.data text.data

/-- Modelled from the spec: a policy object as the Validation Guard sees it: its
configuration and its status. -/
structure PolicyObject where
  spec : Policy
  status : PolicyStatus
  deriving DecidableEq, Repr

/-- Modelled from the spec: the check of the minimum-healthy value: a negative
integer and a malformed percentage string are rejected, with a reason that embeds
the field name `MinHealthy`. -/
def validateMinHealthy (v : MinHealthy) : Option String :=
  match v with
  | .int n => if n < 0 then some "MinHealthy must not be negative" else none
  | .str s =>
    match parsePercentage s with
    | some _ => none
    | none => some "MinHealthy must be a well-formed percentage"

/-- Modelled from the spec: the Validation Guard on creation, absent from the
sources; the result is the list of rejection reasons, empty when accepted. -/
def ValidateCreate (new : Policy) : List String :=
  (validateMinHealthy new.minHealthy).toList

/-- Modelled from the spec: the Validation Guard on update, absent from the sources:
the minimum-healthy check, and the ban on changing the selector while the status
of the stored policy shows a non-empty in-flight remediation list. -/
def ValidateUpdate (old : PolicyObject) (new : Policy) : List String :=
  (validateMinHealthy new.minHealthy).toList ++
    (if !old.status.inFlightRemediations.isEmpty && decide (new.selector ≠ old.spec.selector)
      then ["selector update " ++ OngoingRemediationError] else [])

/-- Modelled from the spec: the Validation Guard on deletion, absent from the
sources: rejected while the in-flight remediation list is non-empty. -/
def ValidateDelete (old : PolicyObject) : List String :=
  if !old.status.inFlightRemediations.isEmpty
    then ["deletion " ++ OngoingRemediationError] else []

/-- Modelled from the spec: a run of reconciliation passes of one policy, each on
its own input; the status is carried from pass to pass (an aborted pass writes
none), the handles created are collected. -/
def runPasses (p : Policy) : List PassInput → PolicyStatus → PolicyStatus × List Handle
  | [], st => (st, [])
  | inp :: rest, st =>
    match reconcile p inp st with
    | .error _ => runPasses p rest st
    | .ok res => ((runPasses p rest res.status).1, res.created ++ (runPasses p rest res.status).2)

/-- Modelled from the spec: the handles a pass created; an aborted pass created none. -/
def handlesCreated (r : Except String PassResult) : List Handle :=
  match r with
  | .ok res => res.created
  | .error _ => []

/-! ## Example objects -/

/-- A selector for worker nodes outside the control plane. -/
def exWorkerSelector : LabelSelector :=
  { MatchLabels := [("role", "worker")]
    MatchExpressions := [{ Key := MasterRoleLabel, Operator := "DoesNotExist", Values := [] }] }

/-- A selector for infrastructure nodes. -/
def exInfraSelector : LabelSelector :=
  { MatchLabels := [], MatchExpressions := [{ Key := "role", Operator := "In", Values := ["infra"] }] }

/-- A malformed selector: its operator is none of the four valid ones. -/
def exMalformedSelector : LabelSelector :=
  { MatchLabels := [], MatchExpressions := [{ Key := "role", Operator := "Bogus", Values := [] }] }

/-- A worker node whose `Ready` condition is `Unknown` since time 100. -/
def exWorkerNode : Node :=
  { Name := "worker-0", Labels := [("role", "worker")]
    Conditions := [{ CondType := "Ready", Status := "Unknown", LastTransitionTime := 100 }] }

/-- Three listed policies with well-formed selectors. -/
def exPolicies : List NodeHealthCheckItem :=
  [{ Name := "nhc-workers", Selector := exWorkerSelector },
   { Name := "nhc-infra", Selector := exInfraSelector },
   { Name := "nhc-all", Selector := { MatchLabels := [], MatchExpressions := [] } }]

/-- Three listed machine health checks with well-formed selectors. -/
def exChecks : List MachineHealthCheckItem :=
  [{ Namespace := "openshift-machine-api", Name := "mhc-infra", Selector := exInfraSelector },
   { Namespace := "default", Name := "test-mhc", Selector := { MatchLabels := [], MatchExpressions := [] } },
   { Namespace := "openshift-machine-api", Name := "mhc-workers", Selector := exWorkerSelector }]

/-- An object store holding the example policies, checks and the worker node. -/
def exClient : Client :=
  { ListNHC := .ok exPolicies
    ListMHC := .ok exChecks
    GetNode := fun name => if name = "worker-0" then .ok exWorkerNode else .error "not found" }

/-- An object store in which one policy and one check have a malformed selector. -/
def exClientMalformed : Client :=
  { ListNHC := .ok [{ Name := "nhc-all", Selector := { MatchLabels := [], MatchExpressions := [] } },
                    { Name := "nhc-broken", Selector := exMalformedSelector }]
    ListMHC := .ok [{ Namespace := "default", Name := "test-mhc",
                      Selector := { MatchLabels := [], MatchExpressions := [] } },
                    { Namespace := "default", Name := "mhc-broken", Selector := exMalformedSelector }]
    GetNode := fun name => if name = "worker-0" then .ok exWorkerNode else .error "not found" }

/-- The event object of a change of the worker node. -/
def exEvent : Object :=
  { Name := "worker-0", Namespace := "", Labels := [("role", "worker")] }

/-- The ladder of the escalating policy of `e2e_test.go`: order 0 with a timeout of
60 and order 5 with a timeout of 300. -/
def exLadder : List EscalationStep :=
  [{ templateReference := "dummy-template", order := 0, timeout := 60 },
   { templateReference := "self-node-remediation-resource-deletion-template", order := 5,
     timeout := 300 }]

/-- The two unhealthy-condition rules of `e2e_test.go`: `Ready` being `False` or
`Unknown` for a duration of 10. -/
def exRules : List UnhealthyConditionRule :=
  [{ conditionType := "Ready", expectedStatus := "False", minimumDuration := 10 },
   { conditionType := "Ready", expectedStatus := "Unknown", minimumDuration := 10 }]

/-- A policy for the worker nodes with the example rules and ladder. -/
def exPolicy : Policy :=
  { identifier := "test-nhc", selector := exWorkerSelector, unhealthyConditions := exRules,
    minHealthy := .int 1, ladder := exLadder }

/-- The example policy with a changed selector, as in `e2e_test.go`. -/
def exPolicyNewSelector : Policy :=
  { exPolicy with selector := { MatchLabels := [("foo", "bar")], MatchExpressions := [] } }

/-- A status with one remediation in flight, for the worker node. -/
def exStatusInFlight : PolicyStatus :=
  aggregateStatus .clear none
    [{ name := "worker-0",
       remediations := [{ order := 0, startTime := 110, timeoutDeadline := 170, timedOut := false }] }]

/-- The stored example policy while the remediation is in flight. -/
def exStored : PolicyObject :=
  { spec := exPolicy, status := exStatusInFlight }

/-- The example policy with the minimum-healthy value `-1`. -/
def exPolicyNegative : Policy :=
  { exPolicy with minHealthy := .int (-1) }

/-- The example policy with the minimum-healthy value `10%`. -/
def exPolicyPercent : Policy :=
  { exPolicy with minHealthy := .str "10%" }

/-- A healthy worker node: its `Ready` condition is `True`. -/
def exHealthyNode (name : String) : Node :=
  { Name := name, Labels := [("role", "worker")]
    Conditions := [{ CondType := "Ready", Status := "True", LastTransitionTime := 0 }] }

/-- A worker node whose `Ready` condition is `False` since time 150. -/
def exSecondUnhealthyNode : Node :=
  { Name := "worker-3", Labels := [("role", "worker")]
    Conditions := [{ CondType := "Ready", Status := "False", LastTransitionTime := 150 }] }

/-- Four worker nodes, two healthy and two unhealthy, and a control-plane node. -/
def exNodes : List Node :=
  [exWorkerNode, exHealthyNode "worker-1", exHealthyNode "worker-2", exSecondUnhealthyNode,
   { Name := "master-0", Labels := [("role", "worker"), (MasterRoleLabel, "")], Conditions := [] }]

/-- The example policy requiring three healthy nodes. -/
def exPolicyQuorum : Policy :=
  { exPolicy with minHealthy := .int 3 }

/-- A pass at time 200 over the example nodes with a clear Conflict Guard. -/
def exPassInput : PassInput :=
  { now := 200, nodes := exNodes, legacyOverlap := false,
    upgradeChecker := { Upgrading := false, Err := none }, roundUp := true }

/-- The same pass while the upgrade checker reports an upgrade. -/
def exPassInputUpgrading : PassInput :=
  { exPassInput with upgradeChecker := { Upgrading := true, Err := none } }

/-- The same pass while a legacy health check overlaps. -/
def exPassInputOverlap : PassInput :=
  { exPassInput with legacyOverlap := true }

/-- A pass at time 200 over one healthy worker node with a clear Conflict Guard. -/
def exPassInputHealthy : PassInput :=
  { exPassInput with nodes := [exHealthyNode "worker-0"] }

/-- A pass at time 176 over the worker node only, with a clear Conflict Guard. -/
def exPassInputEscalate : PassInput :=
  { now := 176, nodes := [exWorkerNode], legacyOverlap := false,
    upgradeChecker := { Upgrading := false, Err := none }, roundUp := true }

/-- The worker node carrying, in addition, a Terminating condition. -/
def exTerminatingNode : Node :=
  { exWorkerNode with
    Conditions := exWorkerNode.Conditions ++
      [{ CondType := NodeConditionTerminating, Status := "True", LastTransitionTime := 0 }] }

/-- Two passes, at times 200 and 400, over the terminating node. -/
def exTerminatingPasses : List PassInput :=
  [{ exPassInputEscalate with now := 200, nodes := [exTerminatingNode] },
   { exPassInputEscalate with now := 400, nodes := [exTerminatingNode] }]

/-! ## The mappers with the calls they make -/

/-- What a mapper does besides computing its result: the calls it makes on the
client, the selector conversions, the invocations of `Matches` and the errors it
logs, in the order of execution. -/
inductive Effect where
  | list
  | convert (selector : LabelSelector)
  | logError
  | get (name : String)
  | invokeMatches
  deriving DecidableEq, Repr

/-- The loop of the delegate of `NHCByNodeMapperFunc`, as `nhcLoop`, together with
the effects of the iterations: conversion, the log entry on a conversion error, the
fetch of the node and the invocation of `Matches`. -/
def nhcLoopTraced (c : Client) (o : Object) :
    List NodeHealthCheckItem → List Request → Outcome (List Request) × List Effect
  | [], r => (.returned r, [])
  | nhc :: rest, r =>
    let converted := LabelSelectorAsSelector nhc.Selector
    let here : List Effect :=
      [.convert nhc.Selector] ++ (if converted.2.isSome then [.logError] else []) ++
        [.get o.Name, .invokeMatches]
    let node := fetchNode c o.Name
    match callMatches converted.1 node.Labels with
    | .panicked => (.panicked, here)
    | .returned true =>
      ((nhcLoopTraced c o rest (r ++ [{ Namespace := "", Name := nhc.Name }])).1,
        here ++ (nhcLoopTraced c o rest (r ++ [{ Namespace := "", Name := nhc.Name }])).2)
    | .returned false =>
      ((nhcLoopTraced c o rest r).1, here ++ (nhcLoopTraced c o rest r).2)

/-- The delegate of `NHCByNodeMapperFunc` together with its effects: the listing
first, and the loop only when the listing succeeded. -/
def NHCByNodeMapperFuncTraced (c : Client) (o : Object) :
    Outcome (List Request) × List Effect :=
  match c.ListNHC with
  | .error _ => (.returned [], [.list])
  | .ok items => ((nhcLoopTraced c o items []).1, .list :: (nhcLoopTraced c o items []).2)

/-- The loop of the delegate of `MHCByNodeMapperFunc`, as `mhcLoop`, together with
the effects of the iterations; after a conversion error only the log entry follows. -/
def mhcLoopTraced (c : Client) (o : Object) :
    List MachineHealthCheckItem → List Request → Outcome (List Request) × List Effect
  | [], r => (.returned r, [])
  | mhc :: rest, r =>
    match LabelSelectorAsSelector mhc.Selector with
    | (_, some _) =>
      ((mhcLoopTraced c o rest r).1,
        [.convert mhc.Selector, .logError] ++ (mhcLoopTraced c o rest r).2)
    | (selector, none) =>
      let here : List Effect := [.convert mhc.Selector, .get o.Name, .invokeMatches]
      let node := fetchNode c o.Name
      match callMatches selector node.Labels with
      | .panicked => (.panicked, here)
      | .returned true =>
        ((mhcLoopTraced c o rest (r ++ [{ Namespace := mhc.Namespace, Name := mhc.Name }])).1,
          here ++
            (mhcLoopTraced c o rest (r ++ [{ Namespace := mhc.Namespace, Name := mhc.Name }])).2)
      | .returned false =>
        ((mhcLoopTraced c o rest r).1, here ++ (mhcLoopTraced c o rest r).2)

/-- The delegate of `MHCByNodeMapperFunc` together with its effects. -/
def MHCByNodeMapperFuncTraced (c : Client) (o : Object) :
    Outcome (List Request) × List Effect :=
  match c.ListMHC with
  | .error _ => (.returned [], [.list])
  | .ok items => ((mhcLoopTraced c o items []).1, .list :: (mhcLoopTraced c o items []).2)

/-- The request the MHC mapper appends for a check: its namespace and name. -/
def MachineHealthCheckItem.request (mhc : MachineHealthCheckItem) : Request :=
  { Namespace := mhc.Namespace, Name := mhc.Name }

/-- The request the NHC mapper appends for a policy: its name, no namespace. -/
def NodeHealthCheckItem.request (nhc : NodeHealthCheckItem) : Request :=
  { Namespace := "", Name := nhc.Name }

/-- The object store with the machine health checks of malformed selector removed
from the listing; everything else is as in `c`. -/
def withoutMalformedChecks (c : Client) : Client :=
  { ListNHC := c.ListNHC
    ListMHC :=
      match c.ListMHC with
      | .ok items => .ok (items.filter (fun mhc => wellFormed mhc.Selector))
      | .error e => .error e
    GetNode := c.GetNode }

/-- The namespace/name pairs of the listed machine health checks, in list order;
none when the listing fails. -/
def listedCheckRequests (c : Client) : List Request :=
  match c.ListMHC with
  | .ok items => items.map MachineHealthCheckItem.request
  | .error _ => []

/-! ## Terminating-condition set-up and clean-up of `e2e/e2e_test.go` -/

/-- The condition appended by the `BeforeEach` of the context "with terminating
node": type `mhc.NodeConditionTerminating`, status `True`, all other fields zero. -/
def terminatingCondition : NodeCondition :=
  { CondType := NodeConditionTerminating, Status := "True", LastTransitionTime := 0 }

/-- The condition list computed by the `BeforeEach` of the context "with terminating
node": `append(conditions, v1.NodeCondition{...})`. -/
def terminatingBeforeEach (conditions : List NodeCondition) : List NodeCondition :=
  conditions ++ [terminatingCondition]

/-- The `for i, cond := range conditions` loop of the `AfterEach` of the context
"with terminating node", from index `i` on with the conditions still to visit: at
the first condition of type Terminating the result is
`append(conditions[:i], conditions[i+1:]...)` and the loop breaks; a loop that
ends without a hit leaves `conditions` as it is. -/
def terminatingAfterEachFrom (conditions : List NodeCondition) :
    Nat → List NodeCondition → List NodeCondition
  | _, [] => conditions
  | i, cond :: rest =>
    if cond.CondType = NodeConditionTerminating then conditions.take i ++ conditions.drop (i + 1)
    else terminatingAfterEachFrom conditions (i + 1) rest

/-- The condition list computed by the `AfterEach` of the context "with terminating
node". -/
def terminatingAfterEach (conditions : List NodeCondition) : List NodeCondition :=
  terminatingAfterEachFrom conditions 0 conditions

/-! ## Further example objects -/

/-- An object store whose listings fail. -/
def exClientListFails : Client :=
  { ListNHC := .error "the cache is not started"
    ListMHC := .error "the cache is not started"
    GetNode := fun name => if name = "worker-0" then .ok exWorkerNode else .error "not found" }

/-- An object store holding the example policies and checks but no node. -/
def exClientNodeGone : Client :=
  { ListNHC := .ok exPolicies
    ListMHC := .ok exChecks
    GetNode := fun _ => .error "not found" }

/-- An object store without nodes in which one policy and one check have a malformed
selector. -/
def exClientNodeGoneMalformed : Client :=
  { ListNHC := exClientMalformed.ListNHC
    ListMHC := exClientMalformed.ListMHC
    GetNode := fun _ => .error "not found" }

/-- An event object with the name of the worker node but other labels and a
namespace. -/
def exEventOtherLabels : Object :=
  { Name := "worker-0", Namespace := "elsewhere", Labels := [("role", "infra")] }

/-- The conditions of a node: `Ready` and `MemoryPressure`. -/
def exConditions : List NodeCondition :=
  [{ CondType := "Ready", Status := "Unknown", LastTransitionTime := 100 },
   { CondType := "MemoryPressure", Status := "False", LastTransitionTime := 50 }]

/-! ## Theorems about the mappers -/

/-- A conversion without error yields a selector: Go never returns `nil, nil`. -/
theorem LabelSelectorAsSelector_selector_of_no_error (ps : LabelSelector)
    (h : (LabelSelectorAsSelector ps).2 = none) :
    ∃ s, (LabelSelectorAsSelector ps).1 = some s := by
  unfold LabelSelectorAsSelector at h ⊢
  split
  · exact ⟨[], rfl⟩
  · rename_i hne
    simp only [hne, if_false] at h
    cases h₁ : matchLabelsRequirements ps.MatchLabels with
    | error e => simp [h₁] at h
    | ok rs₁ =>
      cases h₂ : matchExpressionsRequirements ps.MatchExpressions with
      | error e => simp [h₁, h₂] at h
      | ok rs₂ => exact ⟨rs₁ ++ rs₂, rfl⟩

/-- A conversion with an error yields no selector. -/
theorem LabelSelectorAsSelector_nil_of_error (ps : LabelSelector) (e : String)
    (h : (LabelSelectorAsSelector ps).2 = some e) :
    (LabelSelectorAsSelector ps).1 = none := by
  unfold LabelSelectorAsSelector at h ⊢
  split
  · rename_i hz
    simp [hz] at h
  · rename_i hne
    simp only [hne, if_false] at h
    cases h₁ : matchLabelsRequirements ps.MatchLabels with
    | error e => rfl
    | ok rs₁ =>
      cases h₂ : matchExpressionsRequirements ps.MatchExpressions with
      | error e => rfl
      | ok rs₂ => simp [h₁, h₂] at h

/-- On a well-formed selector the call of `Matches` returns what `selects` says. -/
theorem callMatches_of_wellFormed (sel : LabelSelector) (ls : Labels)
    (h : wellFormed sel = true) :
    callMatches (LabelSelectorAsSelector sel).1 ls = .returned (selects sel ls) := by
  have hn : (LabelSelectorAsSelector sel).2 = none := by
    simpa [wellFormed, Option.isNone_iff_eq_none] using h
  obtain ⟨s, hs⟩ := LabelSelectorAsSelector_selector_of_no_error sel hn
  simp [callMatches, selects, hs]

/-- The loop of the NHC mapper over well-formed items appends, in order, one request
per item that selects the fetched node. -/
theorem nhcLoop_of_wellFormed (c : Client) (o : Object) (items : List NodeHealthCheckItem)
    (r : List Request) (hwf : ∀ nhc ∈ items, wellFormed nhc.Selector = true) :
    nhcLoop c o items r = .returned (r ++
      (items.filter (fun nhc => selects nhc.Selector (fetchNode c o.Name).Labels)).map
        (fun nhc => { Namespace := "", Name := nhc.Name })) := by
  induction items generalizing r with
  | nil => simp [nhcLoop]
  | cons nhc rest ih =>
    have hhead : wellFormed nhc.Selector = true := hwf nhc (List.mem_cons_self _ _)
    have htail : ∀ x ∈ rest, wellFormed x.Selector = true :=
      fun x hx => hwf x (List.mem_cons_of_mem _ hx)
    unfold nhcLoop
    simp only [callMatches_of_wellFormed _ _ hhead]
    cases hsel : selects nhc.Selector (fetchNode c o.Name).Labels with
    | true => simp [ih _ htail, List.filter_cons, hsel]
    | false => simp [ih _ htail, List.filter_cons, hsel]

/-- The loop of the MHC mapper over well-formed items appends, in order, one request
per item that selects the fetched node. -/
theorem mhcLoop_of_wellFormed (c : Client) (o : Object) (items : List MachineHealthCheckItem)
    (r : List Request) (hwf : ∀ mhc ∈ items, wellFormed mhc.Selector = true) :
    mhcLoop c o items r = .returned (r ++
      (items.filter (fun mhc => selects mhc.Selector (fetchNode c o.Name).Labels)).map
        (fun mhc => { Namespace := mhc.Namespace, Name := mhc.Name })) := by
  induction items generalizing r with
  | nil => simp [mhcLoop]
  | cons mhc rest ih =>
    have hhead : wellFormed mhc.Selector = true := hwf mhc (List.mem_cons_self _ _)
    have htail : ∀ x ∈ rest, wellFormed x.Selector = true :=
      fun x hx => hwf x (List.mem_cons_of_mem _ hx)
    have hn : (LabelSelectorAsSelector mhc.Selector).2 = none := by
      simpa [wellFormed, Option.isNone_iff_eq_none] using hhead
    have hcall := callMatches_of_wellFormed mhc.Selector (fetchNode c o.Name).Labels hhead
    unfold mhcLoop
    cases hconv : LabelSelectorAsSelector mhc.Selector with
    | mk selector err =>
      rw [hconv] at hn hcall
      simp only at hn hcall
      subst hn
      simp only [hcall]
      cases hsel : selects mhc.Selector (fetchNode c o.Name).Labels with
      | true => simp [ih _ htail, List.filter_cons, hsel]
      | false => simp [ih _ htail, List.filter_cons, hsel]

/-- C1. When listing the policies and fetching the node named by the event object
both succeed and every listed selector is well-formed, the NHC mapper returns, in
list order, exactly one request per listed policy whose selector matches the labels
of the fetched node, each with the name of the policy and an empty namespace. -/
theorem NHCByNodeMapperFunc_exact (c : Client) (o : Object)
    (items : List NodeHealthCheckItem) (node : Node)
    (hlist : c.ListNHC = .ok items) (hget : c.GetNode o.Name = .ok node)
    (hwf : ∀ nhc ∈ items, wellFormed nhc.Selector = true) :
    NHCByNodeMapperFunc c o = .returned
      ((items.filter (fun nhc => selects nhc.Selector node.Labels)).map
        (fun nhc => { Namespace := "", Name := nhc.Name })) := by
  have hnode : fetchNode c o.Name = node := by simp [fetchNode, hget]
  simp [NHCByNodeMapperFunc, hlist, nhcLoop_of_wellFormed c o items [] hwf, hnode]

/-- C9. When listing the machine health checks and fetching the node named by the
event object both succeed and every listed selector is well-formed, the MHC mapper
returns, in list order, exactly one request per listed check whose selector matches
the labels of the fetched node, each with the namespace and name of the check. -/
theorem MHCByNodeMapperFunc_exact (c : Client) (o : Object)
    (items : List MachineHealthCheckItem) (node : Node)
    (hlist : c.ListMHC = .ok items) (hget : c.GetNode o.Name = .ok node)
    (hwf : ∀ mhc ∈ items, wellFormed mhc.Selector = true) :
    MHCByNodeMapperFunc c o = .returned
      ((items.filter (fun mhc => selects mhc.Selector node.Labels)).map
        (fun mhc => { Namespace := mhc.Namespace, Name := mhc.Name })) := by
  have hnode : fetchNode c o.Name = node := by simp [fetchNode, hget]
  simp [MHCByNodeMapperFunc, hlist, mhcLoop_of_wellFormed c o items [] hwf, hnode]

/-- C1, at the example store: the worker policy and the catch-all policy are
enqueued for the worker node, the infrastructure policy is not. -/
theorem NHCByNodeMapperFunc_exact_witness :
    NHCByNodeMapperFunc exClient exEvent = .returned
      [{ Namespace := "", Name := "nhc-workers" }, { Namespace := "", Name := "nhc-all" }] :=
  (NHCByNodeMapperFunc_exact exClient exEvent exPolicies exWorkerNode rfl rfl (by decide)).trans
    (by decide)

/-- C9, at the example store: the catch-all check and the worker check are enqueued
for the worker node with their namespaces, the infrastructure check is not. -/
theorem MHCByNodeMapperFunc_exact_witness :
    MHCByNodeMapperFunc exClient exEvent = .returned
      [{ Namespace := "default", Name := "test-mhc" },
       { Namespace := "openshift-machine-api", Name := "mhc-workers" }] :=
  (MHCByNodeMapperFunc_exact exClient exEvent exChecks exWorkerNode rfl rfl (by decide)).trans
    (by decide)

/-- The loop of the NHC mapper panics as soon as it reaches an item with a malformed
selector: the error is logged and `Matches` is called on the `nil` selector. -/
theorem nhcLoop_panics_of_malformed (c : Client) (o : Object) (items : List NodeHealthCheckItem)
    (r : List Request) (hbad : ∃ nhc ∈ items, wellFormed nhc.Selector = false) :
    nhcLoop c o items r = .panicked := by
  induction items generalizing r with
  | nil => simp at hbad
  | cons nhc rest ih =>
    unfold nhcLoop
    cases hwf : wellFormed nhc.Selector with
    | true =>
      have hrest : ∃ x ∈ rest, wellFormed x.Selector = false := by
        obtain ⟨x, hx, hxbad⟩ := hbad
        rcases List.mem_cons.mp hx with rfl | hmem
        · simp [hwf] at hxbad
        · exact ⟨x, hmem, hxbad⟩
      simp only [callMatches_of_wellFormed _ _ hwf]
      cases selects nhc.Selector (fetchNode c o.Name).Labels with
      | true => exact ih _ hrest
      | false => exact ih _ hrest
    | false =>
      have herr : ∃ e, (LabelSelectorAsSelector nhc.Selector).2 = some e := by
        cases h2 : (LabelSelectorAsSelector nhc.Selector).2 with
        | none => simp [wellFormed, h2] at hwf
        | some e => exact ⟨e, rfl⟩
      obtain ⟨e, he⟩ := herr
      simp [LabelSelectorAsSelector_nil_of_error _ e he, callMatches]

/-- C2, the code at a failing input: with a listed policy whose selector has the
operator `Bogus`, the NHC mapper does not return a request list but panics, while
the MHC mapper on the same selectors skips the malformed one and returns. -/
theorem NHCByNodeMapperFunc_malformed_selector_panics :
    wellFormed exMalformedSelector = false ∧
    NHCByNodeMapperFunc exClientMalformed exEvent = .panicked ∧
    MHCByNodeMapperFunc exClientMalformed exEvent =
      .returned [{ Namespace := "default", Name := "test-mhc" }] := by
  decide

/-- C10. While a fake time is set, the current-time function of the test suite
returns exactly that time whatever the wall clock shows, so any two calls agree;
when none is set it returns the wall-clock time. -/
theorem currentTime_fake_or_wall (t w₁ w₂ : Time) :
    currentTime (some t) w₁ = t ∧
    currentTime (some t) w₁ = currentTime (some t) w₂ ∧
    currentTime none w₁ = w₁ := by
  simp [currentTime]

/-! ## Theorems about the Validation Guard -/

/-- The two reasons of the selector and deletion bans contain the ongoing-remediation
text and do not name `MinHealthy`. -/
theorem ongoing_reasons_text :
    ContainSubstring ("selector update " ++ OngoingRemediationError) OngoingRemediationError = true ∧
    ContainSubstring ("deletion " ++ OngoingRemediationError) OngoingRemediationError = true ∧
    ContainSubstring ("selector update " ++ OngoingRemediationError) "MinHealthy" = false := by
  decide

/-- A reason of the minimum-healthy check names `MinHealthy` and does not contain the
ongoing-remediation text. -/
theorem validateMinHealthy_reason (v : MinHealthy) (r : String)
    (h : validateMinHealthy v = some r) :
    ContainSubstring r "MinHealthy" = true ∧ ContainSubstring r OngoingRemediationError = false := by
  unfold validateMinHealthy at h
  cases v with
  | int n =>
    simp only at h
    split at h
    · cases h; decide
    · cases h
  | str s =>
    simp only at h
    split at h
    · cases h
    · cases h; decide

/-- The minimum-healthy check rejects exactly a negative integer and a string that
is no well-formed percentage. -/
theorem validateMinHealthy_isSome_iff (v : MinHealthy) :
    (validateMinHealthy v).isSome = true ↔
      ((∃ n : Int, v = .int n ∧ n < 0) ∨ (∃ s, v = .str s ∧ parsePercentage s = none)) := by
  cases v with
  | int n =>
    by_cases hn : n < 0 <;> simp [validateMinHealthy, hn]
  | str s =>
    cases hp : parsePercentage s <;> simp [validateMinHealthy, hp]

/-- C6. While the status of a policy shows a non-empty in-flight remediation list,
an update that changes the selector is rejected and a deletion is rejected, each
with a reason containing the ongoing-remediation error text; when the list is empty
(or, for an update, the selector is unchanged) no reason contains that text, and a
deletion is accepted. -/
theorem validationGuard_ongoing_remediation (old : PolicyObject) (new : Policy) :
    (old.status.inFlightRemediations ≠ [] → new.selector ≠ old.spec.selector →
      ∃ r ∈ ValidateUpdate old new, ContainSubstring r OngoingRemediationError = true) ∧
    (old.status.inFlightRemediations ≠ [] →
      ∃ r ∈ ValidateDelete old, ContainSubstring r OngoingRemediationError = true) ∧
    (old.status.inFlightRemediations = [] →
      (∀ r ∈ ValidateUpdate old new, ContainSubstring r OngoingRemediationError = false) ∧
      ValidateDelete old = []) ∧
    (new.selector = old.spec.selector →
      ∀ r ∈ ValidateUpdate old new, ContainSubstring r OngoingRemediationError = false) := by
  have hmin : ∀ r ∈ (validateMinHealthy new.minHealthy).toList,
      ContainSubstring r OngoingRemediationError = false := by
    intro r hr
    exact (validateMinHealthy_reason _ r (by simpa using hr)).2
  refine ⟨?_, ?_, ?_, ?_⟩
  · intro hne hsel
    refine ⟨"selector update " ++ OngoingRemediationError, ?_, ongoing_reasons_text.1⟩
    simp [ValidateUpdate, hne, hsel]
  · intro hne
    refine ⟨"deletion " ++ OngoingRemediationError, ?_, ongoing_reasons_text.2.1⟩
    simp [ValidateDelete, hne]
  · intro hemp
    constructor
    · intro r hr
      simp only [ValidateUpdate, hemp, List.isEmpty_nil, Bool.not_true, Bool.false_and,
        Bool.false_eq_true, if_false, List.append_nil] at hr
      exact hmin r hr
    · simp [ValidateDelete, hemp]
  · intro hsame r hr
    simp only [ValidateUpdate, hsame, ne_eq, not_true_eq_false, decide_False, Bool.and_false,
      Bool.false_eq_true, if_false, List.append_nil] at hr
    exact hmin r hr

/-- C6, at the stored example policy with one remediation in flight: changing the
selector and deleting are rejected with the ongoing-remediation text. -/
theorem validationGuard_ongoing_remediation_witness :
    (∃ r ∈ ValidateUpdate exStored exPolicyNewSelector,
      ContainSubstring r OngoingRemediationError = true) ∧
    (∃ r ∈ ValidateDelete exStored, ContainSubstring r OngoingRemediationError = true) :=
  ⟨(validationGuard_ongoing_remediation exStored exPolicyNewSelector).1 (by decide) (by decide),
   (validationGuard_ongoing_remediation exStored exPolicyNewSelector).2.1 (by decide)⟩

/-- C7. An update or a creation is rejected with a reason naming `MinHealthy` exactly
when the minimum-healthy value is a negative integer or a string that is no
well-formed percentage. In particular `-1` is rejected, and `10%` with an unchanged
selector is accepted, whatever the in-flight remediation list is. -/
theorem validationGuard_minHealthy (old : PolicyObject) (new : Policy) :
    ((∃ r ∈ ValidateUpdate old new, ContainSubstring r "MinHealthy" = true) ↔
      ((∃ n : Int, new.minHealthy = .int n ∧ n < 0) ∨
       (∃ s, new.minHealthy = .str s ∧ parsePercentage s = none))) ∧
    ((∃ r ∈ ValidateCreate new, ContainSubstring r "MinHealthy" = true) ↔
      ((∃ n : Int, new.minHealthy = .int n ∧ n < 0) ∨
       (∃ s, new.minHealthy = .str s ∧ parsePercentage s = none))) ∧
    (new.minHealthy = .int (-1) →
      ∃ r ∈ ValidateUpdate old new, ContainSubstring r "MinHealthy" = true) ∧
    (new.minHealthy = .str "10%" → new.selector = old.spec.selector →
      ValidateUpdate old new = []) := by
  have hiff := validateMinHealthy_isSome_iff new.minHealthy
  have hcreate : (∃ r ∈ ValidateCreate new, ContainSubstring r "MinHealthy" = true) ↔
      (validateMinHealthy new.minHealthy).isSome = true := by
    constructor
    · rintro ⟨r, hr, -⟩
      simp only [ValidateCreate, Option.mem_toList, Option.mem_def] at hr
      simp [hr]
    · intro h
      obtain ⟨r, hr⟩ := Option.isSome_iff_exists.mp h
      exact ⟨r, by simp [ValidateCreate, hr], (validateMinHealthy_reason _ r hr).1⟩
  have hupdate : (∃ r ∈ ValidateUpdate old new, ContainSubstring r "MinHealthy" = true) ↔
      (validateMinHealthy new.minHealthy).isSome = true := by
    constructor
    · rintro ⟨r, hr, hc⟩
      simp only [ValidateUpdate, List.mem_append, Option.mem_toList, Option.mem_def] at hr
      rcases hr with hr | hr
      · simp [hr]
      · split at hr
        · rw [List.mem_singleton] at hr
          subst hr
          rw [ongoing_reasons_text.2.2] at hc
          cases hc
        · cases hr
    · intro h
      obtain ⟨r, hr⟩ := Option.isSome_iff_exists.mp h
      exact ⟨r, by simp [ValidateUpdate, hr], (validateMinHealthy_reason _ r hr).1⟩
  refine ⟨hupdate.trans hiff, hcreate.trans hiff, ?_, ?_⟩
  · intro hneg
    exact hupdate.mpr (hiff.mpr (Or.inl ⟨-1, hneg, by decide⟩))
  · intro hpct hsame
    have hp : parsePercentage "10%" = some 10 := by decide
    simp [ValidateUpdate, hpct, hsame, validateMinHealthy, hp]

/-- C7, at the stored example policy with one remediation in flight and an
unchanged selector: the value `-1` is rejected with a reason naming `MinHealthy`,
the value `10%` is accepted. -/
theorem validationGuard_minHealthy_witness :
    (∃ r ∈ ValidateUpdate exStored exPolicyNegative, ContainSubstring r "MinHealthy" = true) ∧
    ValidateUpdate exStored exPolicyPercent = [] ∧
    exStored.status.inFlightRemediations = ["worker-0"] :=
  ⟨(validationGuard_minHealthy exStored exPolicyNegative).2.2.1 rfl,
   (validationGuard_minHealthy exStored exPolicyPercent).2.2.2 rfl rfl, by decide⟩

/-! ## Theorems about the reconciliation core -/

/-- A handle created by the Escalation Engine for a node is named after the node,
and one is only created for an unhealthy node while new starts are allowed. -/
theorem escalateNode_created (ladder : List EscalationStep) (now : Time) (allowed : Bool)
    (health : Health) (name : String) (steps : List RemediationStepState) (h : Handle)
    (hmem : h ∈ (escalateNode ladder now allowed health name steps).2) :
    h.name = name ∧ health = .unhealthy ∧ allowed = true := by
  unfold escalateNode at hmem
  cases health with
  | healthy => simp at hmem
  | excluded => simp at hmem
  | unhealthy =>
    cases allowed with
    | false => simp at hmem
    | true =>
      simp only [Bool.not_true, Bool.false_eq_true, if_false] at hmem
      cases hlast : steps.getLast? with
      | none =>
        simp only [hlast] at hmem
        cases hfirst : firstStep ladder with
        | none => simp [hfirst] at hmem
        | some s =>
          simp only [hfirst, List.mem_singleton] at hmem
          subst hmem
          exact ⟨rfl, rfl, rfl⟩
      | some cur =>
        simp only [hlast] at hmem
        split at hmem
        · simp at hmem
        · cases hnext : nextStep ladder cur.order with
          | none => simp [hnext] at hmem
          | some s =>
            simp only [hnext, List.mem_singleton] at hmem
            subst hmem
            exact ⟨rfl, rfl, rfl⟩

/-- While new starts are suppressed the Escalation Engine leaves the step list of an
unhealthy node untouched and creates nothing. -/
theorem escalateNode_suppressed (ladder : List EscalationStep) (now : Time) (name : String)
    (steps : List RemediationStepState) :
    escalateNode ladder now false .unhealthy name steps = (steps, []) := by
  simp [escalateNode]

/-- The entries produced for the target nodes: one per node classified unhealthy, in
order, with the step list the Escalation Engine computed for it. -/
theorem escalateAll_entries (p : Policy) (now : Time) (allowed : Bool) (prev : PolicyStatus)
    (targets : List Node) :
    (escalateAll p now allowed prev targets).1 =
      (targets.filter (fun n => decide (evaluateHealth now p.unhealthyConditions n = .unhealthy))).map
        (fun n => { name := n.Name,
                    remediations := (escalateNode p.ladder now allowed .unhealthy n.Name
                      (stepsOf prev n.Name)).1 }) := by
  induction targets with
  | nil => simp [escalateAll]
  | cons n rest ih =>
    unfold escalateAll
    cases hh : evaluateHealth now p.unhealthyConditions n <;>
      simp [hh, ih, List.filter_cons]

/-- Every handle created in a pass over the target nodes is named after a target
node that is classified unhealthy. -/
theorem escalateAll_created (p : Policy) (now : Time) (allowed : Bool) (prev : PolicyStatus)
    (targets : List Node) (h : Handle) (hmem : h ∈ (escalateAll p now allowed prev targets).2) :
    allowed = true ∧
      ∃ n ∈ targets, h.name = n.Name ∧ evaluateHealth now p.unhealthyConditions n = .unhealthy := by
  induction targets with
  | nil => simp [escalateAll] at hmem
  | cons n rest ih =>
    unfold escalateAll at hmem
    have hsplit : h ∈ (escalateNode p.ladder now allowed
        (evaluateHealth now p.unhealthyConditions n) n.Name (stepsOf prev n.Name)).2 ∨
        h ∈ (escalateAll p now allowed prev rest).2 := by
      cases hh : evaluateHealth now p.unhealthyConditions n <;>
        simpa [hh, List.mem_append] using hmem
    rcases hsplit with hhere | hrest
    · obtain ⟨hname, hhealth, hallowed⟩ := escalateNode_created _ _ _ _ _ _ _ hhere
      exact ⟨hallowed, n, List.mem_cons_self _ _, hname, hhealth⟩
    · obtain ⟨hallowed, m, hm, hname, hhealth⟩ := ih hrest
      exact ⟨hallowed, m, List.mem_cons_of_mem _ hm, hname, hhealth⟩

/-- A handle the Escalation Engine creates for an unhealthy target node is among the
handles of the pass. -/
theorem escalateAll_created_of_mem (p : Policy) (now : Time) (allowed : Bool)
    (prev : PolicyStatus) (targets : List Node) (n : Node) (h : Handle) (hn : n ∈ targets)
    (hunhealthy : evaluateHealth now p.unhealthyConditions n = .unhealthy)
    (hmem : h ∈ (escalateNode p.ladder now allowed .unhealthy n.Name (stepsOf prev n.Name)).2) :
    h ∈ (escalateAll p now allowed prev targets).2 := by
  induction targets with
  | nil => cases hn
  | cons m rest ih =>
    have hgoal : h ∈ (escalateNode p.ladder now allowed
        (evaluateHealth now p.unhealthyConditions m) m.Name (stepsOf prev m.Name)).2 ∨
        h ∈ (escalateAll p now allowed prev rest).2 := by
      rcases List.mem_cons.mp hn with rfl | hrest
      · left
        rw [hunhealthy]
        exact hmem
      · exact Or.inr (ih hrest)
    unfold escalateAll
    cases hh : evaluateHealth now p.unhealthyConditions m <;>
      simpa [hh, List.mem_append] using hgoal

/-- The resolved target nodes are nodes of the node set. -/
theorem resolveTargets_subset (selector : LabelSelector) (nodes targets : List Node)
    (h : resolveTargets selector nodes = .ok targets) : ∀ n ∈ targets, n ∈ nodes := by
  unfold resolveTargets at h
  split at h
  · cases h
    intro n hn
    exact (List.mem_filter.mp hn).1
  · cases h

/-- A pass with a clear Conflict Guard and a valid configuration: the status is
aggregated from the Escalation Engine run with the Healthy-Quorum Gate result. -/
theorem reconcile_clear (p : Policy) (inp : PassInput) (prev : PolicyStatus)
    (targets : List Node) (M : Nat)
    (hcheck : inp.upgradeChecker.Check = (false, none)) (hov : inp.legacyOverlap = false)
    (htargets : resolveTargets p.selector inp.nodes = .ok targets)
    (hM : minimumHealthy inp.roundUp p.minHealthy targets.length = .ok M) :
    reconcile p inp prev = .ok
      { status := aggregateStatus .clear none
          (escalateAll p inp.now (quorumGateOpen targets.length
            (healthyCount inp.now p.unhealthyConditions targets) M) prev targets).1
        created :=
          (escalateAll p inp.now (quorumGateOpen targets.length
            (healthyCount inp.now p.unhealthyConditions targets) M) prev targets).2 } := by
  simp [reconcile, hcheck, hov, conflictGuard, htargets, hM]

/-- Every completed pass aggregates its status from the Conflict Guard result; with
a tripped guard the unhealthy-node list is the previous one and nothing is created. -/
theorem reconcile_shape (p : Policy) (inp : PassInput) (prev : PolicyStatus)
    (herr : inp.upgradeChecker.Err = none) :
    ∃ cfg unhealthy created,
      reconcile p inp prev = .ok
        { status := aggregateStatus
            (conflictGuard inp.legacyOverlap inp.upgradeChecker.Upgrading) cfg unhealthy
          created := created } ∧
      (conflictGuard inp.legacyOverlap inp.upgradeChecker.Upgrading ≠ .clear →
        unhealthy = prev.unhealthyNodes ∧ created = []) := by
  have hcheck : inp.upgradeChecker.Check = (inp.upgradeChecker.Upgrading, none) := by
    simp [fakeClusterUpgradeChecker.Check, herr]
  unfold reconcile
  rw [hcheck]
  simp only
  cases hg : conflictGuard inp.legacyOverlap inp.upgradeChecker.Upgrading with
  | overlap => exact ⟨none, prev.unhealthyNodes, [], rfl, fun _ => ⟨rfl, rfl⟩⟩
  | upgrade => exact ⟨none, prev.unhealthyNodes, [], rfl, fun _ => ⟨rfl, rfl⟩⟩
  | clear =>
    simp only
    cases ht : resolveTargets p.selector inp.nodes with
    | error e => exact ⟨some e, prev.unhealthyNodes, [], rfl, fun h => absurd rfl h⟩
    | ok targets =>
      simp only
      cases hm : minimumHealthy inp.roundUp p.minHealthy targets.length with
      | error e => exact ⟨some e, prev.unhealthyNodes, [], rfl, fun h => absurd rfl h⟩
      | ok M => exact ⟨none, _, _, rfl, fun h => absurd rfl h⟩

/-- C3. The Healthy-Quorum Gate is closed exactly when the target set is not empty
and `H < M`; for `T = 0` it is open whatever `M` is. In a pass with a clear Conflict
Guard and a valid configuration, a closed gate creates no handle and leaves the step
list of every unhealthy node as the previous status has it (neither advanced nor
aborted); an open gate starts the first ladder step for every unhealthy target node
that has no step yet. -/
theorem quorumGate_suppression (p : Policy) (inp : PassInput) (prev : PolicyStatus)
    (targets : List Node) (M : Nat)
    (hcheck : inp.upgradeChecker.Check = (false, none)) (hov : inp.legacyOverlap = false)
    (htargets : resolveTargets p.selector inp.nodes = .ok targets)
    (hM : minimumHealthy inp.roundUp p.minHealthy targets.length = .ok M) :
    (∀ T H R : Nat, (quorumGateOpen T H R = false ↔ (T ≠ 0 ∧ H < R)) ∧
      quorumGateOpen 0 H R = true) ∧
    ∃ res, reconcile p inp prev = .ok res ∧
      (quorumGateOpen targets.length (healthyCount inp.now p.unhealthyConditions targets) M = false →
        res.created = [] ∧
        res.status.unhealthyNodes =
          (targets.filter (fun n =>
            decide (evaluateHealth inp.now p.unhealthyConditions n = .unhealthy))).map
            (fun n => { name := n.Name, remediations := stepsOf prev n.Name })) ∧
      (quorumGateOpen targets.length (healthyCount inp.now p.unhealthyConditions targets) M = true →
        ∀ n ∈ targets, evaluateHealth inp.now p.unhealthyConditions n = .unhealthy →
          stepsOf prev n.Name = [] → ∀ s, firstStep p.ladder = some s →
            handleFor n.Name s ∈ res.created) := by
  refine ⟨?_, _, reconcile_clear p inp prev targets M hcheck hov htargets hM, ?_, ?_⟩
  · intro T H R
    by_cases hT : T = 0
    · subst hT
      simp [quorumGateOpen]
    · simp [quorumGateOpen, hT]
  · intro hclosed
    simp only [hclosed]
    constructor
    · cases hc : (escalateAll p inp.now false prev targets).2 with
      | nil => rfl
      | cons h rest =>
        have hmem : h ∈ (escalateAll p inp.now false prev targets).2 := by simp [hc]
        have := (escalateAll_created p inp.now false prev targets h hmem).1
        cases this
    · simp [aggregateStatus, escalateAll_entries, escalateNode_suppressed]
  · intro hopen n hn hunhealthy hsteps s hfirst
    simp only [hopen]
    apply escalateAll_created_of_mem p inp.now true prev targets n _ hn hunhealthy
    simp [escalateNode, hsteps, hfirst]

/-- C3, at the example nodes: four targets, two healthy, three required. The gate is
closed, nothing is created, and the step of the node in flight, although past its
deadline, is neither marked nor followed by the next step. -/
theorem quorumGate_suppression_witness :
    quorumGateOpen 4 2 3 = false ∧
    ∃ res, reconcile exPolicyQuorum exPassInput exStatusInFlight = .ok res ∧
      res.created = [] ∧
      res.status.unhealthyNodes =
        [{ name := "worker-0",
           remediations := [{ order := 0, startTime := 110, timeoutDeadline := 170, timedOut := false }] },
         { name := "worker-3", remediations := [] }] := by
  obtain ⟨-, res, hres, hclosed, -⟩ :=
    quorumGate_suppression exPolicyQuorum exPassInput exStatusInFlight
      [exWorkerNode, exHealthyNode "worker-1", exHealthyNode "worker-2", exSecondUnhealthyNode] 3
      (by decide) (by decide) rfl rfl
  refine ⟨by decide, res, hres, (hclosed (by decide)).1, ?_⟩
  rw [(hclosed (by decide)).2]
  decide

/-- C4. In every pass whose upgrade check does not fail, the reported phase is the
function `phaseOf` of the Conflict Guard result and the in-flight remediation list:
with a legacy overlap it is Disabled and the Disabled condition is true; without an
overlap but with an upgrade it is Paused; in both cases the unhealthy-node list is
the previous one and no handle is created. Only with a clear guard is it
Remediating (in-flight list non-empty) or Enabled (in-flight list empty), whatever
the previous status was, with the Disabled condition false. -/
theorem phase_stateMachine (p : Policy) (inp : PassInput) (prev : PolicyStatus)
    (herr : inp.upgradeChecker.Err = none) :
    ∃ res, reconcile p inp prev = .ok res ∧
      res.status.phase =
        phaseOf (conflictGuard inp.legacyOverlap inp.upgradeChecker.Upgrading)
          res.status.inFlightRemediations ∧
      (inp.legacyOverlap = true →
        res.status.phase = .Disabled ∧ res.status.disabledCondition = true) ∧
      (inp.legacyOverlap = false → inp.upgradeChecker.Upgrading = true →
        res.status.phase = .Paused) ∧
      (inp.legacyOverlap = true ∨ inp.upgradeChecker.Upgrading = true →
        res.status.unhealthyNodes = prev.unhealthyNodes ∧ res.created = []) ∧
      (inp.legacyOverlap = false → inp.upgradeChecker.Upgrading = false →
        res.status.disabledCondition = false ∧
        (res.status.inFlightRemediations ≠ [] → res.status.phase = .Remediating) ∧
        (res.status.inFlightRemediations = [] → res.status.phase = .Enabled)) := by
  obtain ⟨cfg, unhealthy, created, hres, hfrozen⟩ := reconcile_shape p inp prev herr
  refine ⟨_, hres, rfl, ?_, ?_, ?_, ?_⟩
  · intro hov
    simp [aggregateStatus, conflictGuard, hov, phaseOf]
  · intro hov hup
    simp [aggregateStatus, conflictGuard, hov, hup, phaseOf]
  · intro htrip
    apply hfrozen
    rcases htrip with hov | hup
    · simp [conflictGuard, hov]
    · cases hov : inp.legacyOverlap <;> simp [conflictGuard, hup]
  · intro hov hup
    simp only [aggregateStatus, conflictGuard, hov, hup, phaseOf]
    refine ⟨by simp, ?_, ?_⟩
    · intro hne
      cases hl : inFlightOf unhealthy with
      | nil => exact absurd hl hne
      | cons a l => simp
    · intro hemp
      simp [hemp]

/-- C4, at the example policy with one remediation in flight: with the upgrade
checker tripped the phase is Paused, not Remediating, the remediation stays listed
and nothing is created; with a legacy overlap the phase is Disabled; and a later
pass with a clear guard over healthy nodes, from the Disabled status, reports
Enabled. -/
theorem phase_stateMachine_witness :
    (∃ res, reconcile exPolicy exPassInputUpgrading exStatusInFlight = .ok res ∧
      res.status.phase = .Paused ∧ res.status.inFlightRemediations = ["worker-0"] ∧
      res.created = []) ∧
    (∃ res, reconcile exPolicy exPassInputOverlap exStatusInFlight = .ok res ∧
      res.status.phase = .Disabled ∧ res.status.disabledCondition = true) ∧
    (∃ res, reconcile exPolicy exPassInputHealthy
        (aggregateStatus .overlap none []) = .ok res ∧
      res.status.phase = .Enabled) := by
  refine ⟨?_, ?_, ?_⟩
  · obtain ⟨res, hres, -, -, hpaused, hfrozen, -⟩ :=
      phase_stateMachine exPolicy exPassInputUpgrading exStatusInFlight rfl
    have hsame := (hfrozen (Or.inr rfl)).1
    refine ⟨res, hres, hpaused rfl rfl, ?_, (hfrozen (Or.inr rfl)).2⟩
    have hagg : res.status.inFlightRemediations = inFlightOf res.status.unhealthyNodes := by
      have h2 : reconcile exPolicy exPassInputUpgrading exStatusInFlight = .ok
          { status := aggregateStatus .upgrade none exStatusInFlight.unhealthyNodes,
            created := [] } := rfl
      rw [h2] at hres
      cases hres
      rfl
    rw [hagg, hsame]
    decide
  · obtain ⟨res, hres, -, hdisabled, -⟩ :=
      phase_stateMachine exPolicy exPassInputOverlap exStatusInFlight rfl
    exact ⟨res, hres, hdisabled rfl⟩
  · obtain ⟨res, hres, -, -, -, -, hclear⟩ :=
      phase_stateMachine exPolicy exPassInputHealthy
        (aggregateStatus .overlap none []) rfl
    refine ⟨res, hres, (hclear rfl rfl).2.2 ?_⟩
    have h2 : reconcile exPolicy exPassInputHealthy
        (aggregateStatus .overlap none []) = .ok
        { status := aggregateStatus .clear none [], created := [] } := rfl
    rw [h2] at hres
    cases hres
    rfl

/-- The step of lowest order is a step of the list and no step has a lower order; a
non-empty list has one. -/
theorem lowestOrder_spec (l : List EscalationStep) :
    (l = [] → lowestOrder l = none) ∧
    (l ≠ [] → ∃ s, lowestOrder l = some s) ∧
    (∀ s, lowestOrder l = some s → s ∈ l ∧ ∀ t ∈ l, s.order ≤ t.order) := by
  induction l with
  | nil => simp [lowestOrder]
  | cons a rest ih =>
    obtain ⟨ihnil, ihsome, ihmem⟩ := ih
    refine ⟨by simp, ?_, ?_⟩
    · intro _
      unfold lowestOrder
      cases hr : lowestOrder rest with
      | none => exact ⟨a, rfl⟩
      | some b =>
        by_cases hle : a.order ≤ b.order
        · exact ⟨a, by simp [hle]⟩
        · exact ⟨b, by simp [hle]⟩
    · intro s hs
      unfold lowestOrder at hs
      cases hr : lowestOrder rest with
      | none =>
        have hrest : rest = [] := by
          by_contra hne
          obtain ⟨b, hb⟩ := ihsome hne
          rw [hr] at hb
          cases hb
        simp only [hr] at hs
        cases hs
        subst hrest
        simp
      | some b =>
        obtain ⟨hbmem, hbmin⟩ := ihmem b hr
        simp only [hr] at hs
        by_cases hle : a.order ≤ b.order
        · simp only [hle, if_true] at hs
          cases hs
          refine ⟨List.mem_cons_self _ _, ?_⟩
          intro t ht
          rcases List.mem_cons.mp ht with rfl | htr
          · exact le_refl _
          · exact le_trans hle (hbmin t htr)
        · simp only [hle, if_false] at hs
          cases hs
          refine ⟨List.mem_cons_of_mem _ hbmem, ?_⟩
          intro t ht
          rcases List.mem_cons.mp ht with rfl | htr
          · exact le_of_lt (lt_of_not_le hle)
          · exact hbmin t htr

/-- The next step after order `k` is a ladder step of order greater than `k` with the
smallest such order. -/
theorem nextStep_some (ladder : List EscalationStep) (k : Int) (s : EscalationStep)
    (h : nextStep ladder k = some s) :
    s ∈ ladder ∧ k < s.order ∧ ∀ t ∈ ladder, k < t.order → s.order ≤ t.order := by
  obtain ⟨hmem, hmin⟩ := (lowestOrder_spec _).2.2 s h
  have hs := List.mem_filter.mp hmem
  refine ⟨hs.1, by simpa using hs.2, ?_⟩
  intro t ht hkt
  exact hmin t (List.mem_filter.mpr ⟨ht, by simpa using hkt⟩)

/-- There is a next step after order `k` as soon as a ladder step has a greater order. -/
theorem nextStep_exists (ladder : List EscalationStep) (k : Int)
    (h : ∃ t ∈ ladder, k < t.order) : ∃ s, nextStep ladder k = some s := by
  obtain ⟨t, ht, hkt⟩ := h
  apply (lowestOrder_spec _).2.1
  intro hnil
  have : t ∈ ladder.filter (fun s => decide (k < s.order)) :=
    List.mem_filter.mpr ⟨ht, by simpa using hkt⟩
  rw [hnil] at this
  cases this

/-- There is no next step after order `k` when no ladder step has a greater order. -/
theorem nextStep_none (ladder : List EscalationStep) (k : Int)
    (h : ∀ t ∈ ladder, t.order ≤ k) : nextStep ladder k = none := by
  apply (lowestOrder_spec _).1
  apply List.filter_eq_nil_iff.mpr
  intro t ht
  have := h t ht
  simp only [decide_eq_true_eq, not_lt]
  exact this

/-- In a ladder with unique order values two different steps have different orders. -/
theorem order_ne_of_nodup (ladder : List EscalationStep)
    (huniq : (ladder.map (fun s => s.order)).Nodup) (s t : EscalationStep)
    (hs : s ∈ ladder) (ht : t ∈ ladder) (hne : t ≠ s) : t.order ≠ s.order := by
  intro heq
  exact hne (List.inj_on_of_nodup_map huniq ht hs heq)

/-- C5. For a ladder with unique order values and an unhealthy node whose current
step `cur` is not yet timed out and past its timeout deadline, a pass in which new
starts are allowed marks `cur` timed out and, if a ladder step of greater order
exists, starts the ladder step `s` with the smallest order greater than that of
`cur` (every other such step has a strictly greater order): the earlier states are
kept, the state of `s` is appended and a handle for `s` is created. If no step of
greater order exists, nothing is started. In both cases the node counts once as
in-flight. A pass in which new starts are suppressed changes nothing, so the step
started next is still `s`. -/
theorem escalation_ordering (ladder : List EscalationStep) (now : Time) (name : String)
    (steps : List RemediationStepState) (cur : RemediationStepState)
    (huniq : (ladder.map (fun s => s.order)).Nodup)
    (hcur : steps.getLast? = some cur) (hactive : cur.timedOut = false)
    (hpast : cur.timeoutDeadline < now) :
    ((∃ t ∈ ladder, cur.order < t.order) →
      ∃ s ∈ ladder, cur.order < s.order ∧
        (∀ t ∈ ladder, cur.order < t.order → t ≠ s → s.order < t.order) ∧
        escalateNode ladder now true .unhealthy name steps =
          (steps.dropLast ++ [{ cur with timedOut := true }, startStep now s],
            [handleFor name s])) ∧
    ((∀ t ∈ ladder, t.order ≤ cur.order) →
      escalateNode ladder now true .unhealthy name steps =
        (steps.dropLast ++ [{ cur with timedOut := true }], [])) ∧
    inFlightOf [{ name := name,
                  remediations := (escalateNode ladder now true .unhealthy name steps).1 }] =
      [name] ∧
    escalateNode ladder now false .unhealthy name steps = (steps, []) := by
  have hstep : escalateNode ladder now true .unhealthy name steps =
      match nextStep ladder cur.order with
      | none => (steps.dropLast ++ [{ cur with timedOut := true }], [])
      | some s => (steps.dropLast ++ [{ cur with timedOut := true }] ++ [startStep now s],
          [handleFor name s]) := by
    simp [escalateNode, hcur, hactive, hpast]
  refine ⟨?_, ?_, ?_, escalateNode_suppressed ladder now name steps⟩
  · intro hex
    obtain ⟨s, hs⟩ := nextStep_exists ladder cur.order hex
    obtain ⟨hmem, hgt, hmin⟩ := nextStep_some ladder cur.order s hs
    refine ⟨s, hmem, hgt, ?_, ?_⟩
    · intro t ht hkt hne
      exact lt_of_le_of_ne (hmin t ht hkt) (Ne.symm (order_ne_of_nodup ladder huniq s t hmem ht hne))
    · rw [hstep, hs]
      simp
  · intro hnone
    rw [hstep, nextStep_none ladder cur.order hnone]
  · rw [hstep]
    cases nextStep ladder cur.order <;> simp [inFlightOf]

/-- C5, at the ladder of the e2e test (orders 0 and 5): the step of order 0 started
at 115 with deadline 175 is, at time 176, marked timed out and followed by the step
of order 5; the pass then lists both steps for the node, one in-flight remediation
and the handle of the second template. -/
theorem escalation_ordering_witness :
    escalateNode exLadder 176 true .unhealthy "worker-0"
        [{ order := 0, startTime := 115, timeoutDeadline := 175, timedOut := false }] =
      ([{ order := 0, startTime := 115, timeoutDeadline := 175, timedOut := true },
        { order := 5, startTime := 176, timeoutDeadline := 476, timedOut := false }],
       [{ name := "worker-0",
          templateReference := "self-node-remediation-resource-deletion-template", order := 5 }]) ∧
    escalateNode exLadder 500 true .unhealthy "worker-0"
        [{ order := 5, startTime := 176, timeoutDeadline := 476, timedOut := false }] =
      ([{ order := 5, startTime := 176, timeoutDeadline := 476, timedOut := true }], []) := by
  constructor
  · obtain ⟨s, hmem, hgt, -, hres⟩ :=
      (escalation_ordering exLadder 176 "worker-0"
        [{ order := 0, startTime := 115, timeoutDeadline := 175, timedOut := false }]
        { order := 0, startTime := 115, timeoutDeadline := 175, timedOut := false }
        (by decide) rfl rfl (by decide)).1 (by decide)
    rw [hres]
    simp only [exLadder, List.mem_cons, List.mem_singleton, List.not_mem_nil, or_false] at hmem
    rcases hmem with rfl | rfl
    · exact absurd hgt (by decide)
    · decide
  · exact (escalation_ordering exLadder 500 "worker-0"
        [{ order := 5, startTime := 176, timeoutDeadline := 476, timedOut := false }]
        { order := 5, startTime := 176, timeoutDeadline := 476, timedOut := false }
        (by decide) rfl rfl (by decide)).2.1 (by decide)

/-- No handle created in a pass is named after a node all of whose namesakes in the
node set carry the Terminating condition. -/
theorem reconcile_created_not_terminating (p : Policy) (inp : PassInput) (prev : PolicyStatus)
    (name : String) (hterm : ∀ n ∈ inp.nodes, n.Name = name → isTerminating n = true) :
    ∀ h ∈ handlesCreated (reconcile p inp prev), h.name ≠ name := by
  intro h hmem hname
  unfold handlesCreated reconcile at hmem
  cases hc : inp.upgradeChecker.Check with
  | mk upgrading err =>
    cases err with
    | some e => simp [hc] at hmem
    | none =>
      simp only [hc] at hmem
      cases hg : conflictGuard inp.legacyOverlap upgrading with
      | overlap => simp [hg] at hmem
      | upgrade => simp [hg] at hmem
      | clear =>
        simp only [hg] at hmem
        cases ht : resolveTargets p.selector inp.nodes with
        | error e => simp [ht] at hmem
        | ok targets =>
          simp only [ht] at hmem
          cases hm : minimumHealthy inp.roundUp p.minHealthy targets.length with
          | error e => simp [hm] at hmem
          | ok M =>
            simp only [hm] at hmem
            obtain ⟨-, n, hn, hnname, hunhealthy⟩ := escalateAll_created _ _ _ _ _ _ hmem
            have hnode : n ∈ inp.nodes := resolveTargets_subset _ _ _ ht n hn
            have hT : isTerminating n = true := hterm n hnode (by rw [← hnname, hname])
            simp [evaluateHealth, hT] at hunhealthy

/-- C8. Over any run of reconciliation passes from any status: if in every pass all
nodes of a given name carry a Terminating condition, no remediation handle named
after that node is ever created, whatever the other conditions of the node are and
however long they have held. -/
theorem terminating_node_not_remediated (p : Policy) (inputs : List PassInput)
    (st : PolicyStatus) (name : String)
    (hterm : ∀ inp ∈ inputs, ∀ n ∈ inp.nodes, n.Name = name → isTerminating n = true) :
    ∀ h ∈ (runPasses p inputs st).2, h.name ≠ name := by
  induction inputs generalizing st with
  | nil => simp [runPasses]
  | cons inp rest ih =>
    have hhere := reconcile_created_not_terminating p inp st name
      (hterm inp (List.mem_cons_self _ _))
    have hrest : ∀ inp' ∈ rest, ∀ n ∈ inp'.nodes, n.Name = name → isTerminating n = true :=
      fun inp' hi => hterm inp' (List.mem_cons_of_mem _ hi)
    intro h hmem
    unfold runPasses at hmem
    cases hr : reconcile p inp st with
    | error e =>
      simp only [hr] at hmem
      exact ih st hrest h hmem
    | ok res =>
      simp only [hr, List.mem_append] at hmem
      rcases hmem with hnow | hlater
      · exact hhere h (by simpa [handlesCreated, hr] using hnow)
      · exact ih res.status hrest h hlater

/-- C8, at the worker node that is `Ready` `Unknown` since time 100 and carries a
Terminating condition: two passes, at times 200 and 400, create no handle at all
for it, while the same node without the Terminating condition gets one. -/
theorem terminating_node_not_remediated_witness :
    (∀ h ∈ (runPasses exPolicy exTerminatingPasses PolicyStatus.initial).2, h.name ≠ "worker-0") ∧
    evaluateHealth 200 exRules exWorkerNode = .unhealthy ∧
    isTerminating exTerminatingNode = true ∧
    handlesCreated (reconcile { exPolicy with minHealthy := .int 0 } exPassInputEscalate
      PolicyStatus.initial) =
      [{ name := "worker-0", templateReference := "dummy-template", order := 0 }] :=
  ⟨terminating_node_not_remediated exPolicy exTerminatingPasses PolicyStatus.initial "worker-0"
      (by decide),
    by decide, by decide, by decide⟩

/-! ## Further theorems about the mappers -/

/-- The result of the NHC loop with effects is the result of the NHC loop. -/
theorem nhcLoopTraced_result (c : Client) (o : Object) (items : List NodeHealthCheckItem)
    (r : List Request) : (nhcLoopTraced c o items r).1 = nhcLoop c o items r := by
  induction items generalizing r with
  | nil => rfl
  | cons nhc rest ih =>
    unfold nhcLoopTraced nhcLoop
    dsimp only
    cases hcall : callMatches (LabelSelectorAsSelector nhc.Selector).1 (fetchNode c o.Name).Labels with
    | panicked => rfl
    | returned b => cases b <;> simp [ih]

/-- The result of the MHC loop with effects is the result of the MHC loop. -/
theorem mhcLoopTraced_result (c : Client) (o : Object) (items : List MachineHealthCheckItem)
    (r : List Request) : (mhcLoopTraced c o items r).1 = mhcLoop c o items r := by
  induction items generalizing r with
  | nil => rfl
  | cons mhc rest ih =>
    unfold mhcLoopTraced mhcLoop
    cases hconv : LabelSelectorAsSelector mhc.Selector with
    | mk selector err =>
      cases err with
      | some e => simp [ih]
      | none =>
        simp only
        cases hcall : callMatches selector (fetchNode c o.Name).Labels with
        | panicked => rfl
        | returned b => cases b <;> simp [ih]

/-- The mappers with effects compute the results of the mappers. -/
theorem traced_results (c : Client) (o : Object) :
    (NHCByNodeMapperFuncTraced c o).1 = NHCByNodeMapperFunc c o ∧
    (MHCByNodeMapperFuncTraced c o).1 = MHCByNodeMapperFunc c o := by
  constructor
  · unfold NHCByNodeMapperFuncTraced NHCByNodeMapperFunc
    cases c.ListNHC with
    | error e => rfl
    | ok items => exact nhcLoopTraced_result c o items []
  · unfold MHCByNodeMapperFuncTraced MHCByNodeMapperFunc
    cases c.ListMHC with
    | error e => rfl
    | ok items => exact mhcLoopTraced_result c o items []

/-- A malformed selector selects nothing. -/
theorem selects_eq_false_of_malformed (sel : LabelSelector) (ls : Labels)
    (h : wellFormed sel = false) : selects sel ls = false := by
  cases h2 : (LabelSelectorAsSelector sel).2 with
  | none => simp [wellFormed, h2] at h
  | some e => simp [selects, LabelSelectorAsSelector_nil_of_error sel e h2]

/-- The loop of the MHC mapper, whatever the selectors are: it returns, and appends
in order one request per item whose selector is well-formed and selects the fetched
node. -/
theorem mhcLoop_eq (c : Client) (o : Object) (items : List MachineHealthCheckItem)
    (r : List Request) :
    mhcLoop c o items r = .returned (r ++
      (items.filter (fun mhc =>
        wellFormed mhc.Selector && selects mhc.Selector (fetchNode c o.Name).Labels)).map
        MachineHealthCheckItem.request) := by
  induction items generalizing r with
  | nil => simp [mhcLoop]
  | cons mhc rest ih =>
    cases hwf : wellFormed mhc.Selector with
    | false =>
      have herr : ∃ e, (LabelSelectorAsSelector mhc.Selector).2 = some e := by
        cases h2 : (LabelSelectorAsSelector mhc.Selector).2 with
        | none => simp [wellFormed, h2] at hwf
        | some e => exact ⟨e, rfl⟩
      obtain ⟨e, he⟩ := herr
      unfold mhcLoop
      cases hconv : LabelSelectorAsSelector mhc.Selector with
      | mk selector err =>
        rw [hconv] at he
        simp only at he
        subst he
        simp [ih, List.filter_cons, hwf]
    | true =>
      have hn : (LabelSelectorAsSelector mhc.Selector).2 = none := by
        simpa [wellFormed, Option.isNone_iff_eq_none] using hwf
      have hcall := callMatches_of_wellFormed mhc.Selector (fetchNode c o.Name).Labels hwf
      unfold mhcLoop
      cases hconv : LabelSelectorAsSelector mhc.Selector with
      | mk selector err =>
        rw [hconv] at hn hcall
        simp only at hn hcall
        subst hn
        simp only [hcall]
        cases hsel : selects mhc.Selector (fetchNode c o.Name).Labels with
        | true => simp [ih, List.filter_cons, hwf, hsel, MachineHealthCheckItem.request]
        | false => simp [ih, List.filter_cons, hwf, hsel]

/-- C11. When listing fails, the mapper returns no request at all, for every event
object, and the listing is its only effect: no node is fetched, no selector is
converted, `Matches` is not invoked. This holds for the NHC and the MHC mapper. -/
theorem mappers_abort_on_list_error (c : Client) (o : Object) :
    (∀ e, c.ListNHC = .error e →
      NHCByNodeMapperFunc c o = .returned [] ∧
      NHCByNodeMapperFuncTraced c o = (.returned [], [.list])) ∧
    (∀ e, c.ListMHC = .error e →
      MHCByNodeMapperFunc c o = .returned [] ∧
      MHCByNodeMapperFuncTraced c o = (.returned [], [.list])) := by
  constructor
  · intro e he
    simp [NHCByNodeMapperFunc, NHCByNodeMapperFuncTraced, he]
  · intro e he
    simp [MHCByNodeMapperFunc, MHCByNodeMapperFuncTraced, he]

/-- C11, at the example store whose listings fail: both mappers return no request
for the worker node, with the listing as only effect, although the node could be
fetched. -/
theorem mappers_abort_on_list_error_witness :
    (NHCByNodeMapperFunc exClientListFails exEvent = .returned [] ∧
      NHCByNodeMapperFuncTraced exClientListFails exEvent = (.returned [], [.list])) ∧
    (MHCByNodeMapperFunc exClientListFails exEvent = .returned [] ∧
      MHCByNodeMapperFuncTraced exClientListFails exEvent = (.returned [], [.list])) :=
  ⟨(mappers_abort_on_list_error exClientListFails exEvent).1 "the cache is not started" rfl,
   (mappers_abort_on_list_error exClientListFails exEvent).2 "the cache is not started" rfl⟩

/-- C12. The MHC mapper returns the same on a listing and on that listing with the
checks of malformed selector removed; on a listing `items` it returns, in order,
one request per check whose selector is well-formed and selects the fetched node,
so a check of malformed selector is never enqueued. -/
theorem MHCByNodeMapperFunc_skips_malformed (c : Client) (o : Object) :
    MHCByNodeMapperFunc c o = MHCByNodeMapperFunc (withoutMalformedChecks c) o ∧
    (∀ items, c.ListMHC = .ok items →
      MHCByNodeMapperFunc c o = .returned
        ((items.filter (fun mhc =>
          wellFormed mhc.Selector && selects mhc.Selector (fetchNode c o.Name).Labels)).map
          MachineHealthCheckItem.request) ∧
      ∀ mhc ∈ items, wellFormed mhc.Selector = false → (∀ other ∈ items,
        other.request = mhc.request → wellFormed other.Selector = false) →
        ∀ reqs, MHCByNodeMapperFunc c o = .returned reqs → mhc.request ∉ reqs) := by
  have hfetch : ∀ name, fetchNode (withoutMalformedChecks c) name = fetchNode c name :=
    fun _ => rfl
  constructor
  · unfold MHCByNodeMapperFunc
    cases hl : c.ListMHC with
    | error e => simp [withoutMalformedChecks, hl]
    | ok items =>
      simp only [withoutMalformedChecks, hl]
      rw [mhcLoop_eq, mhcLoop_eq]
      simp only [List.nil_append, List.filter_filter]
      congr 2
      apply List.filter_congr
      intro mhc _
      have : fetchNode
          { ListNHC := c.ListNHC
            ListMHC := Except.ok (items.filter (fun mhc => wellFormed mhc.Selector))
            GetNode := c.GetNode } o.Name = fetchNode c o.Name := rfl
      rw [this]
      cases wellFormed mhc.Selector <;> simp
  · intro items hl
    have hres : MHCByNodeMapperFunc c o = .returned
        ((items.filter (fun mhc =>
          wellFormed mhc.Selector && selects mhc.Selector (fetchNode c o.Name).Labels)).map
          MachineHealthCheckItem.request) := by
      simp [MHCByNodeMapperFunc, hl, mhcLoop_eq]
    refine ⟨hres, ?_⟩
    intro mhc _ _ hall reqs hreqs hin
    rw [hres] at hreqs
    cases hreqs
    obtain ⟨other, hother, heq⟩ := List.mem_map.mp hin
    obtain ⟨hmem, hcond⟩ := List.mem_filter.mp hother
    have := hall other hmem heq
    simp [this] at hcond

/-- C12, at the example store with one check of malformed selector: the mapper
returns the request of the other check, the same as on the listing without the
malformed check, and the malformed check is not enqueued. -/
theorem MHCByNodeMapperFunc_skips_malformed_witness :
    MHCByNodeMapperFunc exClientMalformed exEvent =
      MHCByNodeMapperFunc (withoutMalformedChecks exClientMalformed) exEvent ∧
    MHCByNodeMapperFunc exClientMalformed exEvent =
      .returned [{ Namespace := "default", Name := "test-mhc" }] ∧
    (∀ reqs, MHCByNodeMapperFunc exClientMalformed exEvent = .returned reqs →
      ({ Namespace := "default", Name := "mhc-broken" } : Request) ∉ reqs) :=
  ⟨(MHCByNodeMapperFunc_skips_malformed exClientMalformed exEvent).1,
   (((MHCByNodeMapperFunc_skips_malformed exClientMalformed exEvent).2
      [{ Namespace := "default", Name := "test-mhc",
         Selector := { MatchLabels := [], MatchExpressions := [] } },
       { Namespace := "default", Name := "mhc-broken", Selector := exMalformedSelector }]
      rfl).1).trans (by decide),
   ((MHCByNodeMapperFunc_skips_malformed exClientMalformed exEvent).2
      [{ Namespace := "default", Name := "test-mhc",
         Selector := { MatchLabels := [], MatchExpressions := [] } },
       { Namespace := "default", Name := "mhc-broken", Selector := exMalformedSelector }]
      rfl).2
      { Namespace := "default", Name := "mhc-broken", Selector := exMalformedSelector }
      (by decide) (by decide) (by decide)⟩

/-- The loop of the NHC mapper does not depend on the object store beyond the node
fetched for the name of the event object. -/
theorem nhcLoop_congr (c c' : Client) (o o' : Object) (items : List NodeHealthCheckItem)
    (r : List Request) (hfetch : fetchNode c o.Name = fetchNode c' o'.Name) :
    nhcLoop c o items r = nhcLoop c' o' items r := by
  induction items generalizing r with
  | nil => rfl
  | cons nhc rest ih =>
    unfold nhcLoop
    dsimp only
    rw [hfetch]
    cases callMatches (LabelSelectorAsSelector nhc.Selector).1 (fetchNode c' o'.Name).Labels with
    | panicked => rfl
    | returned b => cases b <;> simp [ih]

/-- When the node cannot be fetched, the MHC mapper returns, in order, one request
per listed check whose selector is well-formed and matches the empty label set. -/
theorem MHCByNodeMapperFunc_fetch_error (c : Client) (o : Object)
    (items : List MachineHealthCheckItem) (e : String)
    (hlist : c.ListMHC = .ok items) (hget : c.GetNode o.Name = .error e) :
    MHCByNodeMapperFunc c o = .returned
      ((items.filter (fun mhc => wellFormed mhc.Selector && selects mhc.Selector [])).map
        MachineHealthCheckItem.request) := by
  have hnode : fetchNode c o.Name = Node.empty := by simp [fetchNode, hget]
  simp [MHCByNodeMapperFunc, hlist, mhcLoop_eq, hnode, Node.empty]

/-- When the node cannot be fetched and every listed selector is well-formed, the
NHC mapper returns, in order, one request per listed policy whose selector matches
the empty label set. -/
theorem NHCByNodeMapperFunc_fetch_error_of_wellFormed (c : Client) (o : Object)
    (items : List NodeHealthCheckItem) (e : String)
    (hlist : c.ListNHC = .ok items) (hget : c.GetNode o.Name = .error e)
    (hwf : ∀ nhc ∈ items, wellFormed nhc.Selector = true) :
    NHCByNodeMapperFunc c o = .returned
      ((items.filter (fun nhc => selects nhc.Selector [])).map NodeHealthCheckItem.request) := by
  have hnode : fetchNode c o.Name = Node.empty := by simp [fetchNode, hget]
  simp only [NHCByNodeMapperFunc, hlist, nhcLoop_of_wellFormed c o items [] hwf, hnode,
    Node.empty, List.nil_append]
  rfl

/-- A selector without labels and expressions is well-formed and matches every label
set, the empty one included. -/
theorem empty_selector_selects (ls : Labels) :
    wellFormed { MatchLabels := [], MatchExpressions := [] } = true ∧
    selects { MatchLabels := [], MatchExpressions := [] } ls = true := by
  constructor
  · rfl
  · simp [selects, LabelSelectorAsSelector, Selector.Matches]

/-- C13, the code at a failing input: the node of the event cannot be fetched and a
listed policy has a malformed selector. The NHC mapper does not return the
policies of well-formed selector that match the empty label set (here `nhc-all`)
but panics; the MHC mapper on the same selectors returns the check with the empty
selector. Without a malformed selector the NHC mapper returns `nhc-all`. -/
theorem NHCByNodeMapperFunc_fetch_error_malformed_panics :
    fetchNode exClientNodeGoneMalformed exEvent.Name = Node.empty ∧
    NHCByNodeMapperFunc exClientNodeGoneMalformed exEvent = .panicked ∧
    MHCByNodeMapperFunc exClientNodeGoneMalformed exEvent =
      .returned [{ Namespace := "default", Name := "test-mhc" }] ∧
    NHCByNodeMapperFunc exClientNodeGone exEvent =
      .returned [{ Namespace := "", Name := "nhc-all" }] := by
  decide

/-- C14. For a fixed content of the object store (two clients that answer every
listing and every fetch alike), two event objects of the same name get the same
outcome from the NHC mapper and the same from the MHC mapper, whatever their labels
and other fields are; in particular for the same object and store. -/
theorem mappers_depend_on_name_only (c c' : Client) (o o' : Object)
    (hnhc : c.ListNHC = c'.ListNHC) (hmhc : c.ListMHC = c'.ListMHC)
    (hget : ∀ name, c.GetNode name = c'.GetNode name) (hname : o.Name = o'.Name) :
    NHCByNodeMapperFunc c o = NHCByNodeMapperFunc c' o' ∧
    MHCByNodeMapperFunc c o = MHCByNodeMapperFunc c' o' := by
  have hfetch : fetchNode c o.Name = fetchNode c' o'.Name := by
    simp [fetchNode, hget, hname]
  constructor
  · unfold NHCByNodeMapperFunc
    rw [← hnhc]
    cases c.ListNHC with
    | error e => rfl
    | ok items => exact nhcLoop_congr c c' o o' items [] hfetch
  · unfold MHCByNodeMapperFunc
    rw [← hmhc]
    cases c.ListMHC with
    | error e => rfl
    | ok items => simp only [mhcLoop_eq, hfetch]

/-- C14, at the example store: the event object of the worker node and an object of
the same name with other labels and a namespace get the same requests. -/
theorem mappers_depend_on_name_only_witness :
    exEvent.Labels ≠ exEventOtherLabels.Labels ∧
    NHCByNodeMapperFunc exClient exEvent = NHCByNodeMapperFunc exClient exEventOtherLabels ∧
    MHCByNodeMapperFunc exClient exEvent = MHCByNodeMapperFunc exClient exEventOtherLabels :=
  ⟨by decide,
   mappers_depend_on_name_only exClient exClient exEvent exEventOtherLabels rfl rfl
     (fun _ => rfl) rfl⟩

/-- C15. The MHC mapper returns, and its request list is a subsequence, in list
order, of the namespace/name pairs of the listed checks: it is not longer than the
listing, and when the listed pairs are pairwise distinct no request appears
twice. -/
theorem MHCByNodeMapperFunc_subsequence (c : Client) (o : Object) :
    ∃ reqs, MHCByNodeMapperFunc c o = .returned reqs ∧
      reqs.Sublist (listedCheckRequests c) ∧
      reqs.length ≤ (listedCheckRequests c).length ∧
      ((listedCheckRequests c).Nodup → reqs.Nodup) := by
  unfold MHCByNodeMapperFunc listedCheckRequests
  cases c.ListMHC with
  | error e => exact ⟨[], rfl, List.Sublist.refl _, le_refl _, fun h => h⟩
  | ok items =>
    have hsub : ((items.filter (fun mhc =>
        wellFormed mhc.Selector && selects mhc.Selector (fetchNode c o.Name).Labels)).map
        MachineHealthCheckItem.request).Sublist (items.map MachineHealthCheckItem.request) :=
      (List.filter_sublist items).map _
    refine ⟨_, ?_, hsub, hsub.length_le, fun h => h.sublist hsub⟩
    simp [mhcLoop_eq]

/-- C15, at the example store: the three listed checks have distinct namespace/name
pairs, and the requests for the worker node are distinct and at most three. -/
theorem MHCByNodeMapperFunc_subsequence_witness :
    (listedCheckRequests exClient).Nodup ∧
    ∃ reqs, MHCByNodeMapperFunc exClient exEvent = .returned reqs ∧
      reqs.length ≤ 3 ∧ reqs.Nodup := by
  obtain ⟨reqs, hres, -, hlen, hnodup⟩ := MHCByNodeMapperFunc_subsequence exClient exEvent
  exact ⟨by decide, reqs, hres, hlen, hnodup (by decide)⟩

/-! ## Theorems about the Terminating-condition set-up and clean-up -/

/-- The clean-up loop, started at the index where `pre` ends, keeps `pre` and erases
from the rest the first condition of type Terminating. -/
theorem terminatingAfterEachFrom_eq (pre l : List NodeCondition) :
    terminatingAfterEachFrom (pre ++ l) pre.length l =
      pre ++ l.eraseP (fun c => decide (c.CondType = NodeConditionTerminating)) := by
  induction l generalizing pre with
  | nil => simp [terminatingAfterEachFrom]
  | cons c rest ih =>
    unfold terminatingAfterEachFrom
    by_cases h : c.CondType = NodeConditionTerminating
    · simp [h, List.take_append_eq_append_take, List.drop_append_eq_append_drop]
    · have hstep := ih (pre ++ [c])
      simp only [List.append_assoc, List.singleton_append, List.length_append,
        List.length_singleton] at hstep
      simp [h, hstep]

/-- The clean-up erases the first condition of type Terminating. -/
theorem terminatingAfterEach_eq_eraseP (conditions : List NodeCondition) :
    terminatingAfterEach conditions =
      conditions.eraseP (fun c => decide (c.CondType = NodeConditionTerminating)) := by
  have h := terminatingAfterEachFrom_eq [] conditions
  simpa [terminatingAfterEach] using h

/-- C16. On a condition list without a condition of type Terminating, the set-up
(appending a Terminating condition) followed by the clean-up gives back exactly
the list, and the clean-up alone leaves it unchanged. On a list with such a
condition the clean-up removes exactly one condition, the first of type
Terminating, and keeps the others in order. -/
theorem terminating_setup_cleanup_inverse (conditions : List NodeCondition) :
    ((∀ c ∈ conditions, c.CondType ≠ NodeConditionTerminating) →
      terminatingAfterEach (terminatingBeforeEach conditions) = conditions ∧
      terminatingAfterEach conditions = conditions) ∧
    ((∃ c ∈ conditions, c.CondType = NodeConditionTerminating) →
      ∃ pre c post, conditions = pre ++ c :: post ∧
        (∀ d ∈ pre, d.CondType ≠ NodeConditionTerminating) ∧
        c.CondType = NodeConditionTerminating ∧
        terminatingAfterEach conditions = pre ++ post ∧
        (terminatingAfterEach conditions).length + 1 = conditions.length) := by
  constructor
  · intro hnone
    have hnot : ∀ a, a ∈ conditions →
        ¬ (fun c => decide (c.CondType = NodeConditionTerminating)) a = true := by
      intro a ha
      simpa using hnone a ha
    constructor
    · rw [terminatingAfterEach_eq_eraseP, terminatingBeforeEach,
        List.eraseP_append_right _ hnot]
      simp [terminatingCondition]
    · rw [terminatingAfterEach_eq_eraseP, List.eraseP_of_forall_not hnot]
  · rintro ⟨c, hc, hterm⟩
    obtain ⟨a, pre, post, hpre, ha, hsplit, herase⟩ :=
      List.exists_of_eraseP (p := fun c => decide (c.CondType = NodeConditionTerminating))
        hc (by simpa using hterm)
    refine ⟨pre, a, post, hsplit, ?_, by simpa using ha, ?_, ?_⟩
    · intro d hd
      simpa using hpre d hd
    · rw [terminatingAfterEach_eq_eraseP, herase]
    · rw [terminatingAfterEach_eq_eraseP, herase, hsplit]
      simp
      omega

/-- C16, at a node with the conditions `Ready` and `MemoryPressure`: set-up followed
by clean-up gives the two conditions back, and on a list with two Terminating
conditions the clean-up removes only the first. -/
theorem terminating_setup_cleanup_inverse_witness :
    terminatingAfterEach (terminatingBeforeEach exConditions) = exConditions ∧
    terminatingAfterEach exConditions = exConditions ∧
    terminatingAfterEach (terminatingCondition :: exConditions ++ [terminatingCondition]) =
      exConditions ++ [terminatingCondition] := by
  refine ⟨((terminating_setup_cleanup_inverse exConditions).1 (by decide)).1,
    ((terminating_setup_cleanup_inverse exConditions).1 (by decide)).2, ?_⟩
  decide

end NodeHealthCheck
